import Mathlib

/-!
Verification of the zkOTP project against its natural-language specification.

The development shallowly embeds the JavaScript/Solidity sources:
- pure functions become Lean functions on `Nat` / `List Nat` (bytes are `Nat`
  values below 256, machine words carry explicit masks),
- external collaborators (the snarkjs proving/verifying oracles, the ledger
  verifier contract, the account store, `crypto.randomBytes`) become explicit
  function parameters or state,
- fallible code returns `Except String` / `Except WalletError` values,
- Solidity contracts become state-passing step functions; a revert is an
  `Except.error` that leaves the caller's state unchanged.
-/

set_option maxRecDepth 20000

namespace ZkOTP

/-! ## JavaScript value model

`generateZKProof` / `generateProof` guard on JavaScript truthiness of their
seven input fields, so we model the relevant fragment of JS values together
with the `truthy` coercion used by `if (!x)`. -/

/-- A JavaScript value as far as the truthiness checks in the sources see it. -/
inductive JSValue where
  | undef : JSValue
  | vnull : JSValue
  | vbool : Bool → JSValue
  | vnum : Int → JSValue
  | vnan : JSValue
  | vstr : String → JSValue
deriving DecidableEq, Repr

/-- JavaScript truthiness: `undefined`, `null`, `false`, `0`, `NaN` and the
empty string are falsy, everything else modelled here is truthy. -/
def JSValue.truthy : JSValue → Bool
  | .undef => false
  | .vnull => false
  | .vbool b => b
  | .vnum n => n != 0
  | .vnan => false
  | .vstr s => s != ""

/-! ## Groth16 proof transport shapes

`Proof`: the opaque group-element triple after the projective third
coordinates have been dropped (a: 2 coords, b: 2×2 coords, c: 2 coords),
each coordinate an unbounded decimal/hex quantity modelled as `Nat`. -/

/-- A Groth16 proof in the on-chain calling convention. -/
structure ProofABC where
  a : List Nat
  b : List (List Nat)
  c : List Nat
deriving DecidableEq, Repr

/-- The verifying-oracle boundary:
`verify(A[2], B[2][2], C[2], signals[5]) -> bool`. -/
def Verifier : Type := ProofABC → List Nat → Bool

/-! ## TrafficLightZkOTP (src/packages/foundry/src/TrafficLightZkOTP.sol)

The boolean-gate variant: a single `bool greenLight` plus the verifier
address.  `switchLight` is embedded from the source; the `require` failure
is a revert, i.e. an `Except.error` with the require message and no state
change (the caller keeps its pre-call state). -/

/-- Contract storage of `TrafficLightZkOTP`: `bool public greenLight`. -/
structure TrafficLightState where
  greenLight : Bool
deriving DecidableEq, Repr

/-- Event `LightToggled(bool newState)`. -/
inductive LightEvent where
  | LightToggled : Bool → LightEvent
deriving DecidableEq, Repr

/-- `switchLight(a, b, c, input)` from `TrafficLightZkOTP.sol`:
verify the proof against the on-chain verifier, `require(ok, "Invalid ZK proof")`,
then toggle `greenLight` and emit `LightToggled(greenLight)`. -/
def switchLight (verifier : Verifier) (st : TrafficLightState)
    (a : List Nat) (b : List (List Nat)) (c : List Nat) (input : List Nat) :
    Except String (TrafficLightState × List LightEvent) :=
  let ok := verifier ⟨a, b, c⟩ input
  if ok then
    let st' : TrafficLightState := { greenLight := ! st.greenLight }
    .ok (st', [LightEvent.LightToggled st'.greenLight])
  else
    .error "Invalid ZK proof"

/-! ## parseSolidityCallData (src/packages/api/functions/index.js)

Strips quotes, brackets and whitespace from the snarkjs calldata string,
splits on commas, and regroups the tokens as a/b/c plus public signals.
Strings are modelled as lists of characters. -/

/-- The final proof object returned by the proof assembler. -/
structure FinalProofObject where
  a : List (List Char)
  b : List (List (List Char))
  c : List (List Char)
  publicInput : List (List Char)
deriving DecidableEq, Repr

/-- Split a character list on a separator character (JavaScript
`String.prototype.split` on a one-character separator). -/
def splitOnChar (sep : Char) : List Char → List (List Char)
  | [] => [[]]
  | ch :: rest =>
    let tail := splitOnChar sep rest
    if ch = sep then [] :: tail
    else
      match tail with
      | [] => [[ch]]
      | t :: ts => (ch :: t) :: ts

/-- The characters removed by the regex `/["[\]\s]/g`: double quote, square
brackets, and whitespace. -/
def strippedChar (ch : Char) : Bool :=
  ch = '"' || ch = '[' || ch = ']' || ch = ' ' || ch = '\t' || ch = '\n' || ch = '\r'

/-- `parseSolidityCallData(calldataString)` from the source: remove brackets,
quotes and whitespace, split by comma; tokens 0-7 become a/b/c and the rest
are the public signals. -/
def parseSolidityCallData (s : List Char) : FinalProofObject :=
  let flat := s.filter (fun ch => ! strippedChar ch)
  let tokens := splitOnChar ',' flat
  { a := [tokens.getD 0 [], tokens.getD 1 []]
    b := [[tokens.getD 2 [], tokens.getD 3 []], [tokens.getD 4 [], tokens.getD 5 []]]
    c := [tokens.getD 6 [], tokens.getD 7 []]
    publicInput := tokens.drop 8 }

/-! ## Proof generation (index.js `generateZKProof`, utils.js `generateProof`)

The snarkjs calls are external oracles:
- `prover` models `snarkjs.groth16.fullProve` (either rejects with an error
  message or produces a proof and public signals),
- `verdict` models `snarkjs.groth16.verify` together with reading the
  verification key (it may error when the key file is unreadable, else it
  returns the boolean verification result),
- `exportCd` models `snarkjs.groth16.exportSolidityCallData`.
The result is paired with the number of times the prover oracle ran. -/

/-- The seven-field witness input object passed to the proof generator. -/
structure ProofInput where
  secret : JSValue
  computedOtp : JSValue
  hashedSecret : JSValue
  hashedOtp : JSValue
  timeStep : JSValue
  actionHash : JSValue
  txNonce : JSValue
deriving DecidableEq, Repr

/-- The guard `if (!input.secret || ... || !input.txNonce)` shared by both
proof-generator variants: true iff some required field is absent or falsy. -/
def ProofInput.missingField (input : ProofInput) : Bool :=
  ! input.secret.truthy || ! input.computedOtp.truthy || ! input.hashedSecret.truthy ||
  ! input.hashedOtp.truthy || ! input.timeStep.truthy || ! input.actionHash.truthy ||
  ! input.txNonce.truthy

/-- Abstract proving-oracle output: a proof plus the ordered public signals. -/
structure ProverOutput where
  proof : ProofABC
  publicSignals : List Nat
deriving DecidableEq, Repr

/-- `generateZKProof(input)` from `src/packages/api/functions/index.js`:
validate the seven fields (throwing the exact message
"Missing required fields in input" before any oracle call), run
`fullProve` inside a try/catch that rethrows with a wrapped message, then
locally re-verify and throw "Proof verification failed." unless the
verdict is `true`, and only then export and parse the calldata.
The second component counts prover-oracle invocations. -/
def generateZKProof
    (prover : ProofInput → Except String ProverOutput)
    (verdict : ProofABC → List Nat → Except String Bool)
    (exportCd : ProofABC → List Nat → List Char)
    (input : ProofInput) : Except String FinalProofObject × Nat :=
  if input.missingField then
    (.error "Missing required fields in input", 0)
  else
    match prover input with
    | .error e =>
      (.error ("Proof generation failed in \x27snarkjs.groth16.fullProve\x27: " ++ e), 1)
    | .ok out =>
      match verdict out.proof out.publicSignals with
      | .error e => (.error e, 1)
      | .ok false => (.error "Proof verification failed.", 1)
      | .ok true => (.ok (parseSolidityCallData (exportCd out.proof out.publicSignals)), 1)

/-- `verifyProof(proof, publicSignals)` from
`src/packages/api/functions/utils/utils.js`: the snarkjs verdict (or the
error from reading the verification key) is consumed inside the function:
a valid result is logged, an invalid result is logged, and any error is
caught and logged — the function always returns normally and discards the
verification outcome. -/
def verifyProofU (verdictResult : Except String Bool) : Except String Unit :=
  match verdictResult with
  | .ok _ => .ok ()
  | .error _ => .ok ()

/-- `generateProof(input)` from `src/packages/api/functions/utils/utils.js`:
validate the seven fields, run `fullProve` (no try/catch: a prover
rejection propagates), call `verifyProof` — whose outcome is swallowed by
`verifyProofU` — and return the parsed calldata regardless of the local
re-verification result.  The second component counts prover invocations. -/
def generateProofU
    (prover : ProofInput → Except String ProverOutput)
    (verdict : ProofABC → List Nat → Except String Bool)
    (exportCd : ProofABC → List Nat → List Char)
    (input : ProofInput) : Except String FinalProofObject × Nat :=
  if input.missingField then
    (.error "Missing required fields in input", 0)
  else
    match prover input with
    | .error e => (.error e, 1)
    | .ok out =>
      match verifyProofU (verdict out.proof out.publicSignals) with
      | .error e => (.error e, 1)
      | .ok () => (.ok (parseSolidityCallData (exportCd out.proof out.publicSignals)), 1)

/-! ## Byte and word helpers -/

/-- Big-endian serialization of `n` into `w` bytes (the value is reduced
modulo `2 ^ (8 * w)` by construction, matching fixed-width encoders). -/
def beBytes (w n : Nat) : List Nat :=
  (List.range w).map (fun i => (n >>> (8 * (w - 1 - i))) &&& 255)

/-- `bytesToBigIntBE(bytes)` from the source: fold bytes big-endian into an
unbounded integer. -/
def bytesToBigIntBE (bytes : List Nat) : Nat :=
  bytes.foldl (fun x b => (x <<< 8) + b) 0

/-- Rotate a 64-bit lane left by `n` (0 ≤ n < 64). -/
def rotl64 (x n : Nat) : Nat :=
  (((x <<< n) ||| (x >>> (64 - n)))) &&& 0xFFFFFFFFFFFFFFFF

/-! ## Keccak-256 (the hash behind `ethers.utils.keccak256`)

The 25 lanes are kept as a `List Nat`, lane (x, y) at index `x + 5 * y`,
each lane below `2 ^ 64`.  The round structure follows the Keccak-f[1600]
reference: theta, rho+pi (as one table-driven permutation), chi, iota. -/

/-- The 24 Keccak-f[1600] round constants. -/
def keccakRC : List Nat :=
  [0x1, 0x8082, 0x800000000000808a, 0x8000000080008000, 0x808b, 0x80000001,
   0x8000000080008081, 0x8000000000008009, 0x8a, 0x88, 0x80008009, 0x8000000a,
   0x8000808b, 0x800000000000008b, 0x8000000000008089, 0x8000000000008003,
   0x8000000000008002, 0x8000000000000080, 0x800a, 0x800000008000000a,
   0x8000000080008081, 0x8000000000008080, 0x80000001, 0x8000000080008008]

/-- Combined rho/pi table: entry at target index `j = y + 5 * ((2x + 3y) % 5)`
is the pair (source index `x + 5y`, rotation offset). -/
def keccakRhoPi : List (Nat × Nat) :=
  [(0, 0), (6, 44), (12, 43), (18, 21), (24, 14), (3, 28), (9, 20), (10, 3),
   (16, 45), (22, 61), (1, 1), (7, 6), (13, 25), (19, 8), (20, 18), (4, 27),
   (5, 36), (11, 10), (17, 15), (23, 56), (2, 62), (8, 55), (14, 39), (15, 41),
   (21, 2)]

/-- Lane accessor on the flattened 5×5 state. -/
def lane (st : List Nat) (x y : Nat) : Nat := st.getD (x + 5 * y) 0

/-- Keccak theta step. -/
def keccakTheta (st : List Nat) : List Nat :=
  let col := fun x => lane st x 0 ^^^ lane st x 1 ^^^ lane st x 2 ^^^ lane st x 3 ^^^ lane st x 4
  let d := fun x => col ((x + 4) % 5) ^^^ rotl64 (col ((x + 1) % 5)) 1
  (List.range 25).map (fun i => st.getD i 0 ^^^ d (i % 5))

/-- Keccak rho and pi steps (table-driven lane permutation with rotation). -/
def keccakRhoPiStep (st : List Nat) : List Nat :=
  keccakRhoPi.map (fun p => rotl64 (st.getD p.1 0) p.2)

/-- Keccak chi step. -/
def keccakChi (st : List Nat) : List Nat :=
  (List.range 25).map (fun i =>
    let x := i % 5
    let y := i / 5
    lane st x y ^^^ ((lane st ((x + 1) % 5) y ^^^ 0xFFFFFFFFFFFFFFFF) &&& lane st ((x + 2) % 5) y))

/-- One Keccak-f round followed by the iota constant addition. -/
def keccakRound (st : List Nat) (rc : Nat) : List Nat :=
  let st' := keccakChi (keccakRhoPiStep (keccakTheta st))
  (st'.getD 0 0 ^^^ rc) :: st'.drop 1

/-- The full Keccak-f[1600] permutation (24 rounds). -/
def keccakF (st : List Nat) : List Nat :=
  keccakRC.foldl keccakRound st

/-- Interpret 8 bytes as a little-endian 64-bit lane. -/
def laneOfBytesLE (bs : List Nat) : Nat :=
  bs.foldr (fun b acc => (acc <<< 8) + (b &&& 255)) 0

/-- Serialize a 64-bit lane into 8 little-endian bytes. -/
def laneToBytesLE (x : Nat) : List Nat :=
  (List.range 8).map (fun i => (x >>> (8 * i)) &&& 255)

/-- Absorb one 136-byte rate block into the state and permute. -/
def keccakAbsorbBlock (st : List Nat) (block : List Nat) : List Nat :=
  let st' := (List.range 25).map (fun i =>
    if i < 17 then st.getD i 0 ^^^ laneOfBytesLE ((block.drop (8 * i)).take 8)
    else st.getD i 0)
  keccakF st'

/-- Split a byte sequence into `count` consecutive blocks of `w` bytes. -/
def chunksOf (w : Nat) : Nat → List Nat → List (List Nat)
  | 0, _ => []
  | Nat.succ k, bytes => bytes.take w :: chunksOf w k (bytes.drop w)

/-- Keccak multi-rate padding for rate 136 with domain byte 0x01 (the
original Keccak padding used by Ethereum, not the SHA-3 0x06 variant). -/
def keccakPad (msg : List Nat) : List Nat :=
  let p := msg ++ [0x01]
  let padded := p ++ List.replicate ((136 - p.length % 136) % 136) 0
  padded.dropLast ++ [padded.getLast! ^^^ 0x80]

/-- Keccak-256 of a byte sequence, producing the 32 digest bytes. -/
def keccak256 (msg : List Nat) : List Nat :=
  let padded := keccakPad msg
  let st := (chunksOf 136 (padded.length / 136) padded).foldl keccakAbsorbBlock
    (List.replicate 25 0)
  laneToBytesLE (st.getD 0 0) ++ laneToBytesLE (st.getD 1 0) ++
  laneToBytesLE (st.getD 2 0) ++ laneToBytesLE (st.getD 3 0)

/-! ## HashBinder action hash
(`computeActionHash` in src/packages/api/functions/utils/utils.js and
src/packages/api/functions/index.js)

`ethers.utils.solidityPack(["address", "uint256", "bytes"], [to, value, data])`
is the tight ABI packing: the address as 20 bytes, the value as a 32-byte
big-endian word, the payload verbatim.  `ethers.utils.keccak256` hashes
the packed bytes; the hex-string result is modelled by its numeric value. -/

/-- Tight packing of one `address` value (20 bytes, big-endian). -/
def solidityPackAddress (toAddr : Nat) : List Nat := beBytes 20 toAddr

/-- Tight packing of one `uint256` value (32 bytes, big-endian). -/
def solidityPackUint256 (value : Nat) : List Nat := beBytes 32 value

/-- `solidityPack(["address","uint256","bytes"], [to, value, data])`. -/
def solidityPack (toAddr value : Nat) (data : List Nat) : List Nat :=
  solidityPackAddress toAddr ++ solidityPackUint256 value ++ data

/-- `computeActionHash(to, value, data)` from the source: keccak256 of the
tight packing; the returned 32-byte hex string is modelled as its numeric
(big-endian) value. -/
def computeActionHash (toAddr value : Nat) (data : List Nat) : Nat :=
  bytesToBigIntBE (keccak256 (solidityPack toAddr value data))

/-- The BN254 scalar field order used throughout hashing and proving. -/
def fieldP : Nat :=
  21888242871839275222246405745257275088548364400416034343698204186575808495617

/-- The spec's description of the action hash, written independently of the
packing helper: keccak-256 of the unpadded concatenation of the fixed-width
(20-byte) target identifier, the fixed-width (32-byte) big-endian value,
and the variable-length payload. -/
def specActionHash (toAddr value : Nat) (data : List Nat) : Nat :=
  bytesToBigIntBE (keccak256 (beBytes 20 toAddr ++ beBytes 32 value ++ data))

/-! ## AuthorizationRoutine (zkOTPWallet)

The wallet contract `zkOTPWallet.sol` itself is not part of the source
tree — only its Foundry and Hardhat test suites are — so the routine is
modelled from the spec (§3, §4.5): persistent fields
hashedSecretConfig/usedNonces/owner/admin, the strictly ordered
execute-checks, and owner-only administration with (old, new) change
events.  A revert is an `Except.error`; the step function keeps the
pre-call state on a revert, which is the spec's transaction atomicity. -/

/-- Ordered 5-tuple of public signals:
[hashedSecret, hashedOtp, timeStep, actionHash, txNonce]. -/
structure PublicSignals where
  hashedSecret : Nat
  hashedOtp : Nat
  timeStep : Nat
  actionHash : Nat
  txNonce : Nat
deriving DecidableEq, Repr

/-- The protocol-fixed signal ordering used on the verifier boundary. -/
def signalsList (s : PublicSignals) : List Nat :=
  [s.hashedSecret, s.hashedOtp, s.timeStep, s.actionHash, s.txNonce]

/-- The ledger rejection reasons of the authorization routine, plus the
owner-only guard failure of the administrative operations. -/
inductive WalletError where
  | InvalidProof : WalletError
  | InvalidHashedSecret : WalletError
  | ActionHashMismatch : WalletError
  | NonceReused : WalletError
  | ActionExecutionFailed : WalletError
  | NotOwner : WalletError
deriving DecidableEq, Repr

/-- Modelled from the spec: the persistent fields of the ledger-resident
authorization state — hashedSecretConfig, the growing usedNonces set,
owner and admin (addresses as `Nat`). -/
structure WalletState where
  owner : Nat
  admin : Nat
  hashedSecretConfig : Nat
  usedNonces : List Nat
deriving DecidableEq, Repr

/-- Change events of the administrative operations, carrying (old, new). -/
inductive WalletEvent where
  | OwnerChanged : Nat → Nat → WalletEvent
  | AdminChanged : Nat → Nat → WalletEvent
  | HashedSecretConfigChanged : Nat → Nat → WalletEvent
deriving DecidableEq, Repr

/-- The ordered observable effects of a successful `execute`: the nonce is
marked used strictly before the target call is performed. -/
inductive ExecStep where
  | NonceMarked : Nat → ExecStep
  | TargetCalled : Nat → Nat → List Nat → ExecStep
deriving DecidableEq, Repr

/-- The external collaborators of the wallet: the verifying oracle and the
outcome of the low-level target call. -/
structure WalletEnv where
  verifier : Verifier
  callOk : Nat → Nat → List Nat → Bool

/-- Modelled from the spec: `execute(target, value, payload, proof,
publicSignals)` of zkOTPWallet (whose .sol source is absent from the
tree), §4.5: strictly ordered, short-circuiting checks
(1) verifying oracle — InvalidProof,
(2) hashedSecret equal to hashedSecretConfig — InvalidHashedSecret,
(3) recomputed action hash of the exact triple — ActionHashMismatch,
(4) already-used txNonce — NonceReused;
then the nonce is marked used before the target call runs, and a target
failure reverts the whole transaction as ActionExecutionFailed. -/
def executeW (env : WalletEnv) (st : WalletState)
    (toAddr value : Nat) (data : List Nat) (prf : ProofABC) (sig : PublicSignals) :
    Except WalletError (WalletState × List ExecStep) :=
  if ! env.verifier prf (signalsList sig) then
    .error .InvalidProof
  else if sig.hashedSecret = st.hashedSecretConfig then
    .error .InvalidHashedSecret
  else if computeActionHash toAddr value data ≠ sig.actionHash then
    .error .ActionHashMismatch
  else if sig.txNonce ∈ st.usedNonces then
    .error .NonceReused
  else
    let st' : WalletState := { st with usedNonces := sig.txNonce :: st.usedNonces }
    if env.callOk toAddr value data then
      .ok (st', [ExecStep.NonceMarked sig.txNonce, ExecStep.TargetCalled toAddr value data])
    else
      .error .ActionExecutionFailed

/-- Modelled from the spec: `setOwner`, owner-only (§4.5 picks owner-only
as the single consistent rule for all three administrative operations),
emitting a change event carrying (old, new). -/
def setOwnerW (st : WalletState) (caller newOwner : Nat) :
    Except WalletError (WalletState × List WalletEvent) :=
  if caller ≠ st.owner then .error .NotOwner
  else .ok ({ st with owner := newOwner }, [WalletEvent.OwnerChanged st.owner newOwner])

/-- Modelled from the spec: `setAdmin`, owner-only, emitting (old, new). -/
def setAdminW (st : WalletState) (caller newAdmin : Nat) :
    Except WalletError (WalletState × List WalletEvent) :=
  if caller ≠ st.owner then .error .NotOwner
  else .ok ({ st with admin := newAdmin }, [WalletEvent.AdminChanged st.admin newAdmin])

/-- Modelled from the spec: `setHashedSecretConfig`, owner-only, emitting
(old, new). -/
def setHashedSecretConfigW (st : WalletState) (caller newValue : Nat) :
    Except WalletError (WalletState × List WalletEvent) :=
  if caller ≠ st.owner then .error .NotOwner
  else .ok ({ st with hashedSecretConfig := newValue },
    [WalletEvent.HashedSecretConfigChanged st.hashedSecretConfig newValue])

/-- A call into the wallet (one ledger transaction). -/
inductive WalletOp where
  | execute : Nat → Nat → List Nat → ProofABC → PublicSignals → WalletOp
  | setOwner : Nat → Nat → WalletOp
  | setAdmin : Nat → Nat → WalletOp
  | setHashedSecretConfig : Nat → Nat → WalletOp

/-- One ledger transaction: on success the new state is committed, on a
revert the pre-call state is kept (atomicity). -/
def stepW (env : WalletEnv) (st : WalletState) : WalletOp → WalletState
  | .execute t v d p s =>
    match executeW env st t v d p s with
    | .ok r => r.1
    | .error _ => st
  | .setOwner c n =>
    match setOwnerW st c n with
    | .ok r => r.1
    | .error _ => st
  | .setAdmin c n =>
    match setAdminW st c n with
    | .ok r => r.1
    | .error _ => st
  | .setHashedSecretConfig c n =>
    match setHashedSecretConfigW st c n with
    | .ok r => r.1
    | .error _ => st

/-- Run a sequence of ledger transactions under the host ledger's global
serialized ordering. -/
def runW (env : WalletEnv) (st : WalletState) (ops : List WalletOp) : WalletState :=
  ops.foldl (stepW env) st

/-! ## Registration endpoints

Two observed variants operate on the account store (modelled as an
association list from account id to stored blob; the store boundary has
`get`/`put` semantics).  The encryption of the secret is the
request-scoped `encryptWithSalt` call, abstracted here as the `encrypt`
parameter (it depends on server environment and fresh randomness).
Request-level ids and secrets are strings; a missing body field arrives
as the empty string (both are JS-falsy). -/

/-- The account store: id ↦ stored encrypted blob. -/
abbrev Store : Type := List (String × String)

/-- `get(id)` on the store boundary. -/
def storeGet (store : Store) (uid : String) : Option String :=
  (store.find? (fun p => p.1 = uid)).map (fun p => p.2)

/-- Responses of the request-level registration boundary. -/
inductive RegisterResult where
  | badRequest : String → RegisterResult
  | alreadyExists : String → RegisterResult
  | registered : RegisterResult
deriving DecidableEq, Repr

/-- `POST /registerUser` from `src/packages/api/app.js`: reject a missing
uid/secret, then check whether any row with this uid exists and answer
"User already exists" without touching the store; otherwise encrypt the
secret and insert the new row. -/
def registerUserSupabase (encrypt : String → String → String)
    (store : Store) (uid secret : String) : Store × RegisterResult :=
  if uid = "" || secret = "" then
    (store, .badRequest "Missing uid or secret")
  else if (store.filter (fun p => p.1 = uid)).length > 0 then
    (store, .alreadyExists "User already exists")
  else
    (store ++ [(uid, encrypt secret uid)], .registered)

/-- `POST /user/register` from `src/unnamed/part_008`: reject a missing
uid/secret, then `db.collection("users").doc(uid).set({encrypted_secret})`
— an unconditional document write with no existence check. -/
def registerUserFirestore (encrypt : String → String → String)
    (store : Store) (uid secret : String) : Store × RegisterResult :=
  if uid = "" || secret = "" then
    (store, .badRequest "Missing uid or secret")
  else
    (store.filter (fun p => p.1 ≠ uid) ++ [(uid, encrypt secret uid)], .registered)

/-- `GET /user/check` from `src/unnamed/part_008`: registered iff the user
document exists. -/
def checkRegistered (store : Store) (uid : String) : Bool :=
  (storeGet store uid).isSome

/-! ## SHA-1 and HMAC-SHA1 (Node `crypto.createHmac("sha1", ...)`)

The OTP engine keys HMAC-SHA1 with the secret bytes.  SHA-1 follows the
FIPS 180 reference: 512-bit blocks, an 80-word message schedule, and the
three round functions; all words carry an explicit `% 2 ^ 32` or 32-bit
mask. -/

/-- Rotate a 32-bit word left by `n` (0 < n < 32). -/
def rotl32 (x n : Nat) : Nat :=
  ((x <<< n) ||| (x >>> (32 - n))) &&& 0xFFFFFFFF

/-- SHA-1 round function: choose / parity / majority / parity. -/
def sha1F (t b c d : Nat) : Nat :=
  if t < 20 then (b &&& c) ||| ((b ^^^ 0xFFFFFFFF) &&& d)
  else if t < 40 then b ^^^ c ^^^ d
  else if t < 60 then (b &&& c) ||| (b &&& d) ||| (c &&& d)
  else b ^^^ c ^^^ d

/-- SHA-1 round constants. -/
def sha1K (t : Nat) : Nat :=
  if t < 20 then 0x5A827999
  else if t < 40 then 0x6ED9EBA1
  else if t < 60 then 0x8F1BBCDC
  else 0xCA62C1D6

/-- One SHA-1 compression round on the (a, b, c, d, e) working state. -/
def sha1Round (w : List Nat) (st : Nat × Nat × Nat × Nat × Nat) (t : Nat) :
    Nat × Nat × Nat × Nat × Nat :=
  let (a, b, c, d, e) := st
  let temp := (rotl32 a 5 + sha1F t b c d + e + sha1K t + w.getD t 0) % 4294967296
  (temp, a, rotl32 b 30, c, d)

/-- Process one 64-byte block: build the 80-word schedule and fold the 80
rounds over the chaining value. -/
def sha1Block (h : List Nat) (block : List Nat) : List Nat :=
  let w16 := (List.range 16).map (fun i => bytesToBigIntBE ((block.drop (4 * i)).take 4))
  let w := (List.range 64).foldl (fun w i =>
    w ++ [rotl32 (w.getD (i + 13) 0 ^^^ w.getD (i + 8) 0 ^^^ w.getD (i + 2) 0 ^^^ w.getD i 0) 1]) w16
  let fin := (List.range 80).foldl (sha1Round w)
    (h.getD 0 0, h.getD 1 0, h.getD 2 0, h.getD 3 0, h.getD 4 0)
  [(h.getD 0 0 + fin.1) % 4294967296,
   (h.getD 1 0 + fin.2.1) % 4294967296,
   (h.getD 2 0 + fin.2.2.1) % 4294967296,
   (h.getD 3 0 + fin.2.2.2.1) % 4294967296,
   (h.getD 4 0 + fin.2.2.2.2) % 4294967296]

/-- SHA-1 of a byte sequence: merkle-damgard padding to 64-byte blocks,
then the per-block compression, serialized big-endian to 20 bytes. -/
def sha1 (msg : List Nat) : List Nat :=
  let padded := msg ++ [0x80] ++
    List.replicate ((64 - (msg.length + 9) % 64) % 64) 0 ++ beBytes 8 (msg.length * 8)
  let hs := (chunksOf 64 (padded.length / 64) padded).foldl sha1Block
    [0x67452301, 0xEFCDAB89, 0x98BADCFE, 0x10325476, 0xC3D2E1F0]
  hs.flatMap (fun wrd => beBytes 4 wrd)

/-- HMAC-SHA1 with a 64-byte block size: hash an over-long key, zero-pad,
xor with the inner/outer pads, and compose the two SHA-1 passes. -/
def hmacSha1 (key msg : List Nat) : List Nat :=
  let k0 := if 64 < key.length then sha1 key else key
  let kpad := k0 ++ List.replicate (64 - k0.length) 0
  sha1 ((kpad.map (fun b => b ^^^ 0x5C)) ++ sha1 ((kpad.map (fun b => b ^^^ 0x36)) ++ msg))

/-! ## OTPEngine (`computeTOTP6` in utils.js / index.js)

The 8-byte big-endian time-step message is `Buffer.writeBigUInt64BE`;
the JavaScript bit operations on the digest stay below `2 ^ 31`, so the
`Nat` shifts and ors model them exactly. -/

/-- `computeTOTP6(secretBytes, timeStep)` from the source: HMAC-SHA1 over
the 8-byte big-endian time step, dynamic truncation with the offset from
the low nibble of digest byte 19, and reduction mod 1,000,000. -/
def computeTOTP6 (secretBytes : List Nat) (timeStep : Nat) : Nat :=
  let digest := hmacSha1 secretBytes (beBytes 8 timeStep)
  let offset := digest.getD 19 0 &&& 0x0f
  let binCode :=
    ((digest.getD offset 0 &&& 0x7f) <<< 24) |||
    ((digest.getD (offset + 1) 0 &&& 0xff) <<< 16) |||
    ((digest.getD (offset + 2) 0 &&& 0xff) <<< 8) |||
    (digest.getD (offset + 3) 0 &&& 0xff)
  binCode % 1000000

/-- The spec's description of the OTP engine, written with plain
arithmetic instead of the JavaScript bit operations: HMAC-SHA1 digest of
the 8-byte big-endian time step keyed by the secret; offset = low nibble
(mod 16) of the final digest byte; read the 4 bytes at that offset as a
big-endian word; clear the top bit (mod `2 ^ 31`); reduce mod 1,000,000. -/
def specOtpCode (secretBytes : List Nat) (timeStep : Nat) : Nat :=
  let digest := hmacSha1 secretBytes (beBytes 8 timeStep)
  let offset := digest.getD 19 0 % 16
  let word := digest.getD offset 0 * 2 ^ 24 + digest.getD (offset + 1) 0 * 2 ^ 16 +
    digest.getD (offset + 2) 0 * 2 ^ 8 + digest.getD (offset + 3) 0
  word % 2 ^ 31 % 1000000

/-! ## SHA-256, HMAC-SHA256 and PBKDF2 (Node `crypto.pbkdf2Sync`)

The secret-vault key derivation is PBKDF2 with 100000 iterations, 32-byte
output, HMAC-SHA256.  In the theorems the derived key only ever appears
symbolically (the same derivation runs on the encrypt and the decrypt
side), so these definitions are never evaluated on concrete data. -/

/-- Rotate a 32-bit word right by `n` (0 < n < 32). -/
def rotr32 (x n : Nat) : Nat :=
  ((x >>> n) ||| (x <<< (32 - n))) &&& 0xFFFFFFFF

/-- The 64 SHA-256 round constants. -/
def sha256K : List Nat :=
  [1116352408, 1899447441, 3049323471, 3921009573, 961987163, 1508970993,
   2453635748, 2870763221, 3624381080, 310598401, 607225278, 1426881987,
   1925078388, 2162078206, 2614888103, 3248222580, 3835390401, 4022224774,
   264347078, 604807628, 770255983, 1249150122, 1555081692, 1996064986,
   2554220882, 2821834349, 2952996808, 3210313671, 3336571891, 3584528711,
   113926993, 338241895, 666307205, 773529912, 1294757372, 1396182291,
   1695183700, 1986661051, 2177026350, 2456956037, 2730485921, 2820302411,
   3259730800, 3345764771, 3516065817, 3600352804, 4094571909, 275423344,
   430227734, 506948616, 659060556, 883997877, 958139571, 1322822218,
   1537002063, 1747873779, 1955562222, 2024104815, 2227730452, 2361852424,
   2428436474, 2756734187, 3204031479, 3329325298]

/-- One SHA-256 compression round. -/
def sha256Round (w : List Nat) (st : List Nat) (t : Nat) : List Nat :=
  let a := st.getD 0 0
  let b := st.getD 1 0
  let c := st.getD 2 0
  let d := st.getD 3 0
  let e := st.getD 4 0
  let f := st.getD 5 0
  let g := st.getD 6 0
  let h := st.getD 7 0
  let s1 := rotr32 e 6 ^^^ rotr32 e 11 ^^^ rotr32 e 25
  let ch := (e &&& f) ^^^ ((e ^^^ 0xFFFFFFFF) &&& g)
  let t1 := (h + s1 + ch + sha256K.getD t 0 + w.getD t 0) % 4294967296
  let s0 := rotr32 a 2 ^^^ rotr32 a 13 ^^^ rotr32 a 22
  let maj := (a &&& b) ^^^ (a &&& c) ^^^ (b &&& c)
  let t2 := (s0 + maj) % 4294967296
  [(t1 + t2) % 4294967296, a, b, c, (d + t1) % 4294967296, e, f, g]

/-- Process one 64-byte SHA-256 block. -/
def sha256Block (h : List Nat) (block : List Nat) : List Nat :=
  let w16 := (List.range 16).map (fun i => bytesToBigIntBE ((block.drop (4 * i)).take 4))
  let w := (List.range 48).foldl (fun w i =>
    let w15 := w.getD (i + 1) 0
    let w2 := w.getD (i + 14) 0
    let s0 := rotr32 w15 7 ^^^ rotr32 w15 18 ^^^ (w15 >>> 3)
    let s1 := rotr32 w2 17 ^^^ rotr32 w2 19 ^^^ (w2 >>> 10)
    w ++ [(w.getD i 0 + s0 + w.getD (i + 9) 0 + s1) % 4294967296]) w16
  let fin := (List.range 64).foldl (sha256Round w) h
  (List.range 8).map (fun i => (h.getD i 0 + fin.getD i 0) % 4294967296)

/-- SHA-256 of a byte sequence (32 digest bytes, big-endian words). -/
def sha256 (msg : List Nat) : List Nat :=
  let padded := msg ++ [0x80] ++
    List.replicate ((64 - (msg.length + 9) % 64) % 64) 0 ++ beBytes 8 (msg.length * 8)
  let hs := (chunksOf 64 (padded.length / 64) padded).foldl sha256Block
    [1779033703, 3144134277, 1013904242, 2773480762,
     1359893119, 2600822924, 528734635, 1541459225]
  hs.flatMap (fun wrd => beBytes 4 wrd)

/-- HMAC-SHA256 with a 64-byte block size. -/
def hmacSha256 (key msg : List Nat) : List Nat :=
  let k0 := if 64 < key.length then sha256 key else key
  let kpad := k0 ++ List.replicate (64 - k0.length) 0
  sha256 ((kpad.map (fun b => b ^^^ 0x5C)) ++ sha256 ((kpad.map (fun b => b ^^^ 0x36)) ++ msg))

/-- The iterated xor-accumulation of PBKDF2 block computation. -/
def pbkdf2Loop (password : List Nat) : Nat → List Nat → List Nat → List Nat
  | 0, _, acc => acc
  | Nat.succ k, u, acc =>
    let u' := hmacSha256 password u
    pbkdf2Loop password k u' (List.zipWith (fun a b => a ^^^ b) acc u')

/-- `crypto.pbkdf2Sync(password, salt, iterations, 32, "sha256")`: the
32-byte output equals the first (and only) PBKDF2 block. -/
def pbkdf2Sha256 (password salt : List Nat) (iterations : Nat) : List Nat :=
  let u1 := hmacSha256 password (salt ++ beBytes 4 1)
  (pbkdf2Loop password (iterations - 1) u1 u1).take 32

/-! ## AES-256 block encryption (the `aes-256-gcm` cipher core)

`crypto.createCipheriv("aes-256-gcm", key, iv)` builds GCM over the
AES-256 block primitive.  GCM only ever runs the block cipher in the
forward direction, so the inverse cipher is not needed.  The state is the
16-byte column-major block; the final mask `&&& 255` is the byte
serialization of the state. -/

/-- The AES S-box. -/
def aesSbox : List Nat :=
  [0x63, 0x7c, 0x77, 0x7b, 0xf2, 0x6b, 0x6f, 0xc5, 0x30, 0x01, 0x67, 0x2b,
   0xfe, 0xd7, 0xab, 0x76, 0xca, 0x82, 0xc9, 0x7d, 0xfa, 0x59, 0x47, 0xf0,
   0xad, 0xd4, 0xa2, 0xaf, 0x9c, 0xa4, 0x72, 0xc0, 0xb7, 0xfd, 0x93, 0x26,
   0x36, 0x3f, 0xf7, 0xcc, 0x34, 0xa5, 0xe5, 0xf1, 0x71, 0xd8, 0x31, 0x15,
   0x04, 0xc7, 0x23, 0xc3, 0x18, 0x96, 0x05, 0x9a, 0x07, 0x12, 0x80, 0xe2,
   0xeb, 0x27, 0xb2, 0x75, 0x09, 0x83, 0x2c, 0x1a, 0x1b, 0x6e, 0x5a, 0xa0,
   0x52, 0x3b, 0xd6, 0xb3, 0x29, 0xe3, 0x2f, 0x84, 0x53, 0xd1, 0x00, 0xed,
   0x20, 0xfc, 0xb1, 0x5b, 0x6a, 0xcb, 0xbe, 0x39, 0x4a, 0x4c, 0x58, 0xcf,
   0xd0, 0xef, 0xaa, 0xfb, 0x43, 0x4d, 0x33, 0x85, 0x45, 0xf9, 0x02, 0x7f,
   0x50, 0x3c, 0x9f, 0xa8, 0x51, 0xa3, 0x40, 0x8f, 0x92, 0x9d, 0x38, 0xf5,
   0xbc, 0xb6, 0xda, 0x21, 0x10, 0xff, 0xf3, 0xd2, 0xcd, 0x0c, 0x13, 0xec,
   0x5f, 0x97, 0x44, 0x17, 0xc4, 0xa7, 0x7e, 0x3d, 0x64, 0x5d, 0x19, 0x73,
   0x60, 0x81, 0x4f, 0xdc, 0x22, 0x2a, 0x90, 0x88, 0x46, 0xee, 0xb8, 0x14,
   0xde, 0x5e, 0x0b, 0xdb, 0xe0, 0x32, 0x3a, 0x0a, 0x49, 0x06, 0x24, 0x5c,
   0xc2, 0xd3, 0xac, 0x62, 0x91, 0x95, 0xe4, 0x79, 0xe7, 0xc8, 0x37, 0x6d,
   0x8d, 0xd5, 0x4e, 0xa9, 0x6c, 0x56, 0xf4, 0xea, 0x65, 0x7a, 0xae, 0x08,
   0xba, 0x78, 0x25, 0x2e, 0x1c, 0xa6, 0xb4, 0xc6, 0xe8, 0xdd, 0x74, 0x1f,
   0x4b, 0xbd, 0x8b, 0x8a, 0x70, 0x3e, 0xb5, 0x66, 0x48, 0x03, 0xf6, 0x0e,
   0x61, 0x35, 0x57, 0xb9, 0x86, 0xc1, 0x1d, 0x9e, 0xe1, 0xf8, 0x98, 0x11,
   0x69, 0xd9, 0x8e, 0x94, 0x9b, 0x1e, 0x87, 0xe9, 0xce, 0x55, 0x28, 0xdf,
   0x8c, 0xa1, 0x89, 0x0d, 0xbf, 0xe6, 0x42, 0x68, 0x41, 0x99, 0x2d, 0x0f,
   0xb0, 0x54, 0xbb, 0x16]

/-- S-box substitution of a single byte. -/
def subByte (b : Nat) : Nat := aesSbox.getD b 0

/-- Rotate a 32-bit key-schedule word left by one byte. -/
def rotWord (w : Nat) : Nat := ((w <<< 8) ||| (w >>> 24)) &&& 0xFFFFFFFF

/-- S-box substitution on each byte of a 32-bit word. -/
def subWord (w : Nat) : Nat := bytesToBigIntBE ((beBytes 4 w).map subByte)

/-- AES-256 key-expansion round constants (for i / 8 = 1..7). -/
def aesRcon : List Nat := [1, 2, 4, 8, 16, 32, 64]

/-- AES-256 key expansion: 8 initial words from the 32-byte key, extended
to 60 words. -/
def aesKeyExpansion (key : List Nat) : List Nat :=
  let w0 := (List.range 8).map (fun i => bytesToBigIntBE ((key.drop (4 * i)).take 4))
  (List.range 52).foldl (fun w i =>
    let j := i + 8
    let t0 := w.getD (j - 1) 0
    let t1 :=
      if j % 8 = 0 then subWord (rotWord t0) ^^^ (aesRcon.getD (j / 8 - 1) 0 <<< 24)
      else if j % 8 = 4 then subWord t0
      else t0
    w ++ [w.getD (j - 8) 0 ^^^ t1]) w0

/-- The 16 round-key bytes of round `r`. -/
def aesRoundKey (w : List Nat) (r : Nat) : List Nat :=
  ((w.drop (4 * r)).take 4).flatMap (fun wrd => beBytes 4 wrd)

/-- xtime: multiplication by x in GF(2^8) modulo x^8 + x^4 + x^3 + x + 1. -/
def xtime (b : Nat) : Nat :=
  let b2 := (b <<< 1) &&& 255
  if b &&& 128 = 0 then b2 else b2 ^^^ 27

/-- ShiftRows on the column-major byte list (source index table). -/
def shiftRowsTbl : List Nat := [0, 5, 10, 15, 4, 9, 14, 3, 8, 13, 2, 7, 12, 1, 6, 11]

/-- ShiftRows. -/
def shiftRows (st : List Nat) : List Nat := shiftRowsTbl.map (fun i => st.getD i 0)

/-- SubBytes. -/
def subBytes (st : List Nat) : List Nat := st.map subByte

/-- MixColumns on a single 4-byte column. -/
def mixColumn (s : List Nat) : List Nat :=
  let s0 := s.getD 0 0
  let s1 := s.getD 1 0
  let s2 := s.getD 2 0
  let s3 := s.getD 3 0
  [xtime s0 ^^^ xtime s1 ^^^ s1 ^^^ s2 ^^^ s3,
   s0 ^^^ xtime s1 ^^^ xtime s2 ^^^ s2 ^^^ s3,
   s0 ^^^ s1 ^^^ xtime s2 ^^^ xtime s3 ^^^ s3,
   xtime s0 ^^^ s0 ^^^ s1 ^^^ s2 ^^^ xtime s3]

/-- MixColumns on the 16-byte state. -/
def mixColumns (st : List Nat) : List Nat := (chunksOf 4 4 st).flatMap mixColumn

/-- AddRoundKey. -/
def addRoundKey (st rk : List Nat) : List Nat := List.zipWith (fun a b => a ^^^ b) st rk

/-- AES-256 forward block encryption (14 rounds); the final `&&& 255` map
is the byte serialization of the state. -/
def aesEncryptBlock (w : List Nat) (block : List Nat) : List Nat :=
  let st0 := addRoundKey block (aesRoundKey w 0)
  let stN := (List.range 13).foldl (fun st r =>
    addRoundKey (mixColumns (shiftRows (subBytes st))) (aesRoundKey w (r + 1))) st0
  (addRoundKey (shiftRows (subBytes stN)) (aesRoundKey w 14)).map (fun b => b &&& 255)

/-! ## GCM mode (NIST SP 800-38D, as used by `aes-256-gcm`) -/

/-- Multiplication in GF(2^128) with the GHASH reduction polynomial,
blocks as 128-bit big-endian numbers. -/
def gfMul128 (x y : Nat) : Nat :=
  let r := 0xe1 <<< 120
  (((List.range 128).foldl (fun zv i =>
    let z := if y.testBit (127 - i) then zv.1 ^^^ zv.2 else zv.1
    let v := if zv.2 &&& 1 = 1 then (zv.2 >>> 1) ^^^ r else zv.2 >>> 1
    (z, v)) ((0 : Nat), x))).1

/-- Zero-pad a byte sequence up to a multiple of 16 bytes. -/
def padTo16 (bs : List Nat) : List Nat :=
  bs ++ List.replicate ((16 - bs.length % 16) % 16) 0

/-- GHASH over whole 16-byte blocks. -/
def ghashBlocks (h : Nat) (blocks : List (List Nat)) : Nat :=
  blocks.foldl (fun y blk => gfMul128 (y ^^^ bytesToBigIntBE blk) h) 0

/-- The GCM counter keystream for a 12-byte IV: block `i` encrypts
`iv ++ BE32(i + 2)` (the counter starts after J0 = iv ++ BE32(1)),
truncated to `n` bytes. -/
def gcmKeystream (w : List Nat) (iv : List Nat) (n : Nat) : List Nat :=
  ((List.range ((n + 15) / 16)).flatMap
    (fun i => aesEncryptBlock w (iv ++ beBytes 4 (i + 2)))).take n

/-- GCM CTR transform (identical on the encrypt and the decrypt side). -/
def gcmCtr (w : List Nat) (iv data : List Nat) : List Nat :=
  List.zipWith (fun a b => a ^^^ b) data (gcmKeystream w iv data.length)

/-- The GCM authentication tag over the ciphertext (no associated data):
GHASH under H = E(K, 0^128) of the padded ciphertext and the length
block, finally xored with E(K, J0). -/
def gcmTag (w : List Nat) (iv ct : List Nat) : List Nat :=
  let h := bytesToBigIntBE (aesEncryptBlock w (List.replicate 16 0))
  let lenBlock := beBytes 8 0 ++ beBytes 8 (ct.length * 8)
  let s := ghashBlocks h (chunksOf 16 ((padTo16 ct).length / 16) (padTo16 ct) ++ [lenBlock])
  List.zipWith (fun a b => a ^^^ b) (aesEncryptBlock w (iv ++ beBytes 4 1)) (beBytes 16 s)

/-! ## Base64 (Node Buffer base64 encoding of IV, ciphertext and tag) -/

/-- The base64 alphabet as byte values (A-Z, a-z, 0-9, +, /). -/
def b64alphabet : List Nat :=
  [65, 66, 67, 68, 69, 70, 71, 72, 73, 74, 75, 76, 77, 78, 79, 80, 81, 82,
   83, 84, 85, 86, 87, 88, 89, 90, 97, 98, 99, 100, 101, 102, 103, 104, 105,
   106, 107, 108, 109, 110, 111, 112, 113, 114, 115, 116, 117, 118, 119,
   120, 121, 122, 48, 49, 50, 51, 52, 53, 54, 55, 56, 57, 43, 47]

/-- Encode a 6-bit group as its base64 alphabet byte. -/
def b64char (n : Nat) : Nat := b64alphabet.getD n 0

/-- The 6-bit value of a base64 alphabet byte. -/
def b64value (c : Nat) : Nat := b64alphabet.indexOf c

/-- Base64 encoding of a byte sequence ("=" is byte 61). -/
def b64encode : List Nat → List Nat
  | [] => []
  | [b1] => [b64char (b1 >>> 2), b64char ((b1 &&& 3) <<< 4), 61, 61]
  | [b1, b2] =>
    [b64char (b1 >>> 2), b64char (((b1 &&& 3) <<< 4) ||| (b2 >>> 4)),
     b64char ((b2 &&& 15) <<< 2), 61]
  | b1 :: b2 :: b3 :: rest =>
    b64char (b1 >>> 2) :: b64char (((b1 &&& 3) <<< 4) ||| (b2 >>> 4)) ::
    b64char (((b2 &&& 15) <<< 2) ||| (b3 >>> 6)) :: b64char (b3 &&& 63) ::
    b64encode rest

/-- Base64 decoding (of well-formed encodings, padding only at the end). -/
def b64decode : List Nat → List Nat
  | c1 :: c2 :: c3 :: c4 :: rest =>
    let v1 := b64value c1
    let v2 := b64value c2
    let v3 := b64value c3
    let v4 := b64value c4
    if c3 = 61 then [(v1 <<< 2) ||| (v2 >>> 4)]
    else if c4 = 61 then [(v1 <<< 2) ||| (v2 >>> 4), ((v2 &&& 15) <<< 4) ||| (v3 >>> 2)]
    else ((v1 <<< 2) ||| (v2 >>> 4)) :: (((v2 &&& 15) <<< 4) ||| (v3 >>> 2)) ::
      (((v3 &&& 3) <<< 6) ||| v4) :: b64decode rest
  | _ => []

/-! ## SecretVault (`encryptWithSalt` / `decryptWithSalt` in
src/packages/api/functions/index.js)

Strings (plaintext, salt, password, the colon-joined output) are modelled
as their UTF-8 byte sequences; the random IV from `crypto.randomBytes(12)`
is an explicit parameter; the two environment variables are the
`CryptoEnv` record, with a missing variable arriving as the falsy empty
value. -/

/-- Split a byte sequence on a separator byte (the recursive result is
always nonempty, so prepending to its head is JavaScript split). -/
def splitOnByte (sep : Nat) : List Nat → List (List Nat)
  | [] => [[]]
  | b :: rest =>
    if b = sep then [] :: splitOnByte sep rest
    else (b :: (splitOnByte sep rest).headD []) :: (splitOnByte sep rest).tail

/-- The environment variables of the secret vault. -/
structure CryptoEnv where
  password : List Nat
  algorithm : String

/-- `algorithm.includes("gcm")`: the three characters g, c, m occur
consecutively somewhere in the algorithm name. -/
def gcmSub : List Char → Bool
  | 'g' :: 'c' :: 'm' :: _ => true
  | _ :: rest => gcmSub rest
  | [] => false

/-- `algorithm.includes("gcm")`. -/
def algoUsesGcm (alg : String) : Bool := gcmSub alg.toList

/-- `encryptWithSalt(plaintext, salt)` from index.js: check the two
environment variables, reject an empty plaintext, derive the key with
PBKDF2(password, salt, 100000, 32, sha256), encrypt with
createCipheriv(algorithm, key, iv) for the fresh 12-byte random IV, grab
the auth tag when the algorithm is GCM, and return
base64(iv) : base64(ciphertext) : base64(tag) (":" is byte 58). -/
def encryptWithSalt (env : CryptoEnv) (iv plaintext salt : List Nat) :
    Except String (List Nat) :=
  if env.password.isEmpty then
    .error "ENCRYPTION_WORD is not defined in the environment variables"
  else if env.algorithm = "" then
    .error "ENCRYPTION_ALGORITHM is not defined in the environment variables"
  else if plaintext.isEmpty then
    .error "The \x27plaintext\x27 argument must be a non-empty string."
  else
    let key := pbkdf2Sha256 env.password salt 100000
    let w := aesKeyExpansion key
    let ct := gcmCtr w iv plaintext
    let authTag := if algoUsesGcm env.algorithm then gcmTag w iv ct else []
    .ok (b64encode iv ++ [58] ++ b64encode ct ++ [58] ++ b64encode authTag)

/-- `decryptWithSalt(encryptedString, salt)` from index.js: check the
environment, reject an empty input, split on ":" and require at least
two parts, rebuild the PBKDF2 key, base64-decode the IV, require an auth
tag for a GCM algorithm, CTR-decrypt the ciphertext and let `final()`
verify the tag (a mismatch is the Node authentication failure). -/
def decryptWithSalt (env : CryptoEnv) (encryptedString salt : List Nat) :
    Except String (List Nat) :=
  if env.password.isEmpty then
    .error "ENCRYPTION_WORD is not defined in the environment variables"
  else if env.algorithm = "" then
    .error "ENCRYPTION_ALGORITHM is not defined in the environment variables"
  else if encryptedString.isEmpty then
    .error "The \x27encryptedString\x27 argument must be a non-empty string."
  else
    let parts := splitOnByte 58 encryptedString
    if parts.length < 2 then
      .error "Encrypted string format invalid. Expected \x27IV:ciphertext[:authTag]\x27."
    else
      let ivB64 := parts.getD 0 []
      let ciphertextB64 := parts.getD 1 []
      let authTagB64 := parts.getD 2 []
      let key := pbkdf2Sha256 env.password salt 100000
      let iv := b64decode ivB64
      let w := aesKeyExpansion key
      if algoUsesGcm env.algorithm && authTagB64.isEmpty then
        .error "No authTag provided for GCM decryption."
      else
        let ct := b64decode ciphertextB64
        let pt := gcmCtr w iv ct
        if algoUsesGcm env.algorithm then
          if b64decode authTagB64 = gcmTag w iv ct then .ok pt
          else .error "Unsupported state or unable to authenticate data"
        else .ok pt

/-- Decidable equality of `Except` results, so that concrete runs of the
embedded functions can be checked by `decide`. -/
instance {ε α : Type} [DecidableEq ε] [DecidableEq α] : DecidableEq (Except ε α) := fun a b =>
  match a, b with
  | .error e, .error e' =>
    if h : e = e' then isTrue (by rw [h]) else isFalse (fun hc => h (by cases hc; rfl))
  | .error _, .ok _ => isFalse (fun hc => by cases hc)
  | .ok _, .error _ => isFalse (fun hc => by cases hc)
  | .ok x, .ok y =>
    if h : x = y then isTrue (by rw [h]) else isFalse (fun hc => h (by cases hc; rfl))

/-! # Theorems -/

/-! ## C9: the boolean-gate variant -/

/-- Claim C9: in the boolean-gate variant, for every proof triple and every
5-element public-input vector, the state-flip entry point consults only the
verifying oracle: a false verdict reverts with "Invalid ZK proof" leaving
the light unchanged (the revert discards the call), a true verdict flips
the light, and no nonce and no action-hash check is performed in either
case — the outcome depends on the public inputs only through the oracle
verdict. -/
theorem switchLight_boolean_gate (verifier : Verifier) (st : TrafficLightState)
    (a : List Nat) (b : List (List Nat)) (c : List Nat) (input : List Nat) :
    (verifier ⟨a, b, c⟩ input = false →
      switchLight verifier st a b c input = .error "Invalid ZK proof") ∧
    (verifier ⟨a, b, c⟩ input = true →
      switchLight verifier st a b c input =
        .ok ({ greenLight := ! st.greenLight },
          [LightEvent.LightToggled (! st.greenLight)])) ∧
    (∀ input' : List Nat, verifier ⟨a, b, c⟩ input = verifier ⟨a, b, c⟩ input' →
      switchLight verifier st a b c input = switchLight verifier st a b c input') := by
  refine ⟨fun h => ?_, fun h => ?_, fun input' h => ?_⟩
  · simp [switchLight, h]
  · simp [switchLight, h]
  · simp only [switchLight, ← h]

/-- Closed witness for C9 at a concrete verifier, state and input. -/
theorem switchLight_boolean_gate_witness :
    switchLight (fun _ _ => false) ⟨false⟩ [1] [[2]] [3] [9999, 0, 0, 0, 42] =
      .error "Invalid ZK proof" ∧
    switchLight (fun _ _ => true) ⟨false⟩ [1] [[2]] [3] [9999, 0, 0, 0, 42] =
      .ok (⟨true⟩, [LightEvent.LightToggled true]) := by
  constructor
  · exact (switchLight_boolean_gate (fun _ _ => false) ⟨false⟩ [1] [[2]] [3]
      [9999, 0, 0, 0, 42]).1 rfl
  · exact (switchLight_boolean_gate (fun _ _ => true) ⟨false⟩ [1] [[2]] [3]
      [9999, 0, 0, 0, 42]).2.1 rfl

/-! ## C10: input validation of the proof generator -/

/-- Claim C10: for every input object, if any of the seven fields secret,
computedOtp, hashedSecret, hashedOtp, timeStep, actionHash, txNonce is
absent or falsy, `generateZKProof` throws "Missing required fields in
input" and the proving oracle runs zero times; when all seven fields are
truthy the proving oracle runs exactly once, whatever the three oracles
do. -/
theorem generateZKProof_missing_fields
    (prover : ProofInput → Except String ProverOutput)
    (verdict : ProofABC → List Nat → Except String Bool)
    (exportCd : ProofABC → List Nat → List Char) (input : ProofInput) :
    ((input.secret.truthy = false ∨ input.computedOtp.truthy = false ∨
      input.hashedSecret.truthy = false ∨ input.hashedOtp.truthy = false ∨
      input.timeStep.truthy = false ∨ input.actionHash.truthy = false ∨
      input.txNonce.truthy = false) →
      generateZKProof prover verdict exportCd input =
        (.error "Missing required fields in input", 0)) ∧
    ((input.secret.truthy = true ∧ input.computedOtp.truthy = true ∧
      input.hashedSecret.truthy = true ∧ input.hashedOtp.truthy = true ∧
      input.timeStep.truthy = true ∧ input.actionHash.truthy = true ∧
      input.txNonce.truthy = true) →
      (generateZKProof prover verdict exportCd input).2 = 1) := by
  constructor
  · intro h
    have hm : input.missingField = true := by
      simp only [ProofInput.missingField, Bool.or_eq_true, Bool.not_eq_true']
      tauto
    simp [generateZKProof, hm]
  · rintro ⟨h1, h2, h3, h4, h5, h6, h7⟩
    have hm : input.missingField = false := by
      simp [ProofInput.missingField, h1, h2, h3, h4, h5, h6, h7]
    simp only [generateZKProof, hm, Bool.false_eq_true, if_false]
    rcases hp : prover input with e | out
    · simp
    · rcases hv : verdict out.proof out.publicSignals with e | b
      · simp [hv]
      · cases b <;> simp [hv]

/-- Closed witness for C10: a missing secret makes the generator throw with
zero prover runs; an all-truthy input runs the prover exactly once. -/
theorem generateZKProof_missing_fields_witness :
    generateZKProof (fun _ => .error "boom") (fun _ _ => .ok true) (fun _ _ => [])
      ⟨.undef, .vstr "1", .vstr "1", .vstr "1", .vstr "1", .vstr "1", .vstr "1"⟩ =
      (.error "Missing required fields in input", 0) ∧
    (generateZKProof (fun _ => .error "boom") (fun _ _ => .ok true) (fun _ _ => [])
      ⟨.vstr "1", .vstr "1", .vstr "1", .vstr "1", .vstr "1", .vstr "1", .vstr "1"⟩).2 = 1 := by
  constructor
  · exact (generateZKProof_missing_fields (fun _ => .error "boom") (fun _ _ => .ok true)
      (fun _ _ => [])
      ⟨.undef, .vstr "1", .vstr "1", .vstr "1", .vstr "1", .vstr "1", .vstr "1"⟩).1
      (Or.inl rfl)
  · exact (generateZKProof_missing_fields (fun _ => .error "boom") (fun _ _ => .ok true)
      (fun _ _ => [])
      ⟨.vstr "1", .vstr "1", .vstr "1", .vstr "1", .vstr "1", .vstr "1", .vstr "1"⟩).2
      ⟨rfl, rfl, rfl, rfl, rfl, rfl, rfl⟩

/-! ## C5: local re-verification of generated proofs -/

/-- Counterexample to claim C5 as stated: in the utils.js assembler the
local re-verification verdict is false, yet `generateProof` returns the
proof object instead of raising — `verifyProof` swallows the outcome. -/
theorem generateProofU_returns_on_failed_verification :
    (fun (_ : ProofABC) (_ : List Nat) => (.ok false : Except String Bool))
        ⟨[1, 2], [[3, 4], [5, 6]], [7, 8]⟩ [9999, 0, 0, 0, 42] = .ok false ∧
    generateProofU
      (fun _ => .ok ⟨⟨[1, 2], [[3, 4], [5, 6]], [7, 8]⟩, [9999, 0, 0, 0, 42]⟩)
      (fun _ _ => .ok false) (fun _ _ => [])
      ⟨.vstr "1", .vstr "1", .vstr "1", .vstr "1", .vstr "1", .vstr "1", .vstr "1"⟩ =
      (.ok (parseSolidityCallData []), 1) := by
  exact ⟨rfl, rfl⟩

/-- Claim C5, amended: the index.js assembler `generateZKProof` does fail
closed — it returns a proof object only when the local re-verification ran
without error and returned true — but the utils.js assembler
`generateProof` does not: whenever the prover succeeds it returns the
proof object regardless of the re-verification verdict (the verdict is
swallowed by its `verifyProof`). -/
theorem generate_proof_fail_closed_contrast :
    (∀ (prover : ProofInput → Except String ProverOutput)
       (verdict : ProofABC → List Nat → Except String Bool)
       (exportCd : ProofABC → List Nat → List Char) (input : ProofInput)
       (pf : FinalProofObject) (k : Nat),
       generateZKProof prover verdict exportCd input = (.ok pf, k) →
       ∃ out, prover input = .ok out ∧ verdict out.proof out.publicSignals = .ok true) ∧
    (∀ (prover : ProofInput → Except String ProverOutput)
       (verdict : ProofABC → List Nat → Except String Bool)
       (exportCd : ProofABC → List Nat → List Char) (input : ProofInput)
       (out : ProverOutput),
       input.missingField = false → prover input = .ok out →
       generateProofU prover verdict exportCd input =
         (.ok (parseSolidityCallData (exportCd out.proof out.publicSignals)), 1)) := by
  constructor
  · intro prover verdict exportCd input pf k h
    unfold generateZKProof at h
    by_cases hm : input.missingField = true
    · simp [hm] at h
    · simp only [hm, Bool.false_eq_true, if_false] at h
      rcases hp : prover input with e | out
      · rw [hp] at h; simp at h
      · rw [hp] at h
        rcases hv : verdict out.proof out.publicSignals with e | b
        · simp only [hv] at h; simp at h
        · simp only [hv] at h
          cases b
          · simp at h
          · exact ⟨out, rfl, hv⟩
  · intro prover verdict exportCd input out hm hp
    unfold generateProofU
    simp only [hm, Bool.false_eq_true, if_false, hp]
    cases hv : verdict out.proof out.publicSignals <;> simp [verifyProofU, hv]

/-- Closed witness for the amended C5, applying both halves at concrete
oracles and inputs. -/
theorem generate_proof_fail_closed_contrast_witness :
    (∃ out, (fun (_ : ProofInput) =>
        (.ok ⟨⟨[1, 2], [[3, 4], [5, 6]], [7, 8]⟩, [9999, 0, 0, 0, 42]⟩ :
          Except String ProverOutput))
        ⟨.vstr "1", .vstr "1", .vstr "1", .vstr "1", .vstr "1", .vstr "1", .vstr "1"⟩ =
        .ok out ∧
      (fun (_ : ProofABC) (_ : List Nat) => (.ok true : Except String Bool))
        out.proof out.publicSignals = .ok true) ∧
    generateProofU
      (fun _ => .ok ⟨⟨[1, 2], [[3, 4], [5, 6]], [7, 8]⟩, [9999, 0, 0, 0, 42]⟩)
      (fun _ _ => .error "key file unreadable") (fun _ _ => [])
      ⟨.vstr "1", .vstr "1", .vstr "1", .vstr "1", .vstr "1", .vstr "1", .vstr "1"⟩ =
      (.ok (parseSolidityCallData []), 1) := by
  constructor
  · exact generate_proof_fail_closed_contrast.1
      (fun _ => .ok ⟨⟨[1, 2], [[3, 4], [5, 6]], [7, 8]⟩, [9999, 0, 0, 0, 42]⟩)
      (fun _ _ => .ok true) (fun _ _ => [])
      ⟨.vstr "1", .vstr "1", .vstr "1", .vstr "1", .vstr "1", .vstr "1", .vstr "1"⟩
      (parseSolidityCallData []) 1 rfl
  · exact generate_proof_fail_closed_contrast.2
      (fun _ => .ok ⟨⟨[1, 2], [[3, 4], [5, 6]], [7, 8]⟩, [9999, 0, 0, 0, 42]⟩)
      (fun _ _ => .error "key file unreadable") (fun _ _ => [])
      ⟨.vstr "1", .vstr "1", .vstr "1", .vstr "1", .vstr "1", .vstr "1", .vstr "1"⟩
      ⟨⟨[1, 2], [[3, 4], [5, 6]], [7, 8]⟩, [9999, 0, 0, 0, 42]⟩ rfl rfl

/-! ## Wallet helper lemmas (shared by C1, C2, C3) -/

/-- A successful `execute` commits exactly one state change — the nonce is
prepended to usedNonces — and its effect trace marks the nonce before the
target call. -/
theorem executeW_ok_spec {env : WalletEnv} {st : WalletState} {t v : Nat}
    {d : List Nat} {p : ProofABC} {sig : PublicSignals}
    {r : WalletState × List ExecStep}
    (h : executeW env st t v d p sig = .ok r) :
    r.1 = { st with usedNonces := sig.txNonce :: st.usedNonces } ∧
    sig.txNonce ∉ st.usedNonces ∧
    r.2 = [ExecStep.NonceMarked sig.txNonce, ExecStep.TargetCalled t v d] := by
  unfold executeW at h
  split at h
  · simp at h
  split at h
  · simp at h
  split at h
  · simp at h
  split at h
  · simp at h
  rename_i hnon
  split at h
  · cases h
    exact ⟨rfl, hnon, rfl⟩
  · simp at h

/-- A successful `setOwner` requires the owner as caller, updates only the
owner field and emits the (old, new) event. -/
theorem setOwnerW_ok_spec {st : WalletState} {c x : Nat}
    {r : WalletState × List WalletEvent} (h : setOwnerW st c x = .ok r) :
    r.1 = { st with owner := x } ∧ c = st.owner ∧
    r.2 = [WalletEvent.OwnerChanged st.owner x] := by
  unfold setOwnerW at h
  split at h
  · simp at h
  · rename_i hc
    cases h
    exact ⟨rfl, not_ne_iff.mp hc, rfl⟩

/-- A successful `setAdmin` requires the owner as caller, updates only the
admin field and emits the (old, new) event. -/
theorem setAdminW_ok_spec {st : WalletState} {c x : Nat}
    {r : WalletState × List WalletEvent} (h : setAdminW st c x = .ok r) :
    r.1 = { st with admin := x } ∧ c = st.owner ∧
    r.2 = [WalletEvent.AdminChanged st.admin x] := by
  unfold setAdminW at h
  split at h
  · simp at h
  · rename_i hc
    cases h
    exact ⟨rfl, not_ne_iff.mp hc, rfl⟩

/-- A successful `setHashedSecretConfig` requires the owner as caller,
updates only that field and emits the (old, new) event. -/
theorem setHashedSecretConfigW_ok_spec {st : WalletState} {c x : Nat}
    {r : WalletState × List WalletEvent} (h : setHashedSecretConfigW st c x = .ok r) :
    r.1 = { st with hashedSecretConfig := x } ∧ c = st.owner ∧
    r.2 = [WalletEvent.HashedSecretConfigChanged st.hashedSecretConfig x] := by
  unfold setHashedSecretConfigW at h
  split at h
  · simp at h
  · rename_i hc
    cases h
    exact ⟨rfl, not_ne_iff.mp hc, rfl⟩

/-- Used nonces are never removed: every single transaction preserves
membership in usedNonces. -/
theorem stepW_preserves_nonces {env : WalletEnv} {st : WalletState}
    {n : Nat} (op : WalletOp) (h : n ∈ st.usedNonces) :
    n ∈ (stepW env st op).usedNonces := by
  cases op with
  | execute t v d p sig =>
    dsimp only [stepW]
    rcases hE : executeW env st t v d p sig with e | r
    · exact h
    · have h1 := (executeW_ok_spec hE).1
      dsimp only
      rw [h1]
      exact List.mem_cons_of_mem _ h
  | setOwner c x =>
    dsimp only [stepW]
    rcases hE : setOwnerW st c x with e | r
    · exact h
    · dsimp only
      rw [(setOwnerW_ok_spec hE).1]
      exact h
  | setAdmin c x =>
    dsimp only [stepW]
    rcases hE : setAdminW st c x with e | r
    · exact h
    · dsimp only
      rw [(setAdminW_ok_spec hE).1]
      exact h
  | setHashedSecretConfig c x =>
    dsimp only [stepW]
    rcases hE : setHashedSecretConfigW st c x with e | r
    · exact h
    · dsimp only
      rw [(setHashedSecretConfigW_ok_spec hE).1]
      exact h

/-- Used nonces survive any sequence of ledger transactions. -/
theorem runW_preserves_nonces {env : WalletEnv} {n : Nat} :
    ∀ (ops : List WalletOp) (st : WalletState), n ∈ st.usedNonces →
      n ∈ (runW env st ops).usedNonces := by
  intro ops
  induction ops with
  | nil => exact fun st h => h
  | cons op ops ih => exact fun st h => ih _ (stepW_preserves_nonces op h)

/-- An execute whose nonce is already used can never succeed. -/
theorem executeW_used_nonce_not_ok {env : WalletEnv} {st : WalletState}
    {t v : Nat} {d : List Nat} {p : ProofABC} {sig : PublicSignals}
    (h : sig.txNonce ∈ st.usedNonces) :
    ∀ r, executeW env st t v d p sig ≠ .ok r :=
  fun _ hE => (executeW_ok_spec hE).2.1 h

/-- An execute whose nonce is already used and which passes the proof,
hashed-secret and action-hash checks fails with NonceReused. -/
theorem executeW_used_nonce_reused {env : WalletEnv} {st : WalletState}
    {t v : Nat} {d : List Nat} {p : ProofABC} {sig : PublicSignals}
    (hv : env.verifier p (signalsList sig) = true)
    (hs : sig.hashedSecret ≠ st.hashedSecretConfig)
    (ha : computeActionHash t v d = sig.actionHash)
    (h : sig.txNonce ∈ st.usedNonces) :
    executeW env st t v d p sig = .error .NonceReused := by
  unfold executeW
  simp [hv, hs, ha, h]

/-! ## C2: strict check ordering of execute -/

/-- Claim C2 (spec-modelled: zkOTPWallet.sol is absent from the tree, the
routine is modelled from §4.5): execute performs its checks strictly in
the order InvalidProof, InvalidHashedSecret (hashedSecret EQUAL to the
config is the rejected revocation stamp, even when the action hash is
also mismatched), ActionHashMismatch, NonceReused, short-circuiting on
the first failure; every failure reverts, committing no state change. -/
theorem executeW_check_order (env : WalletEnv) (st : WalletState)
    (t v : Nat) (d : List Nat) (p : ProofABC) (sig : PublicSignals) :
    (env.verifier p (signalsList sig) = false →
      executeW env st t v d p sig = .error .InvalidProof) ∧
    (env.verifier p (signalsList sig) = true →
      sig.hashedSecret = st.hashedSecretConfig →
      executeW env st t v d p sig = .error .InvalidHashedSecret) ∧
    (env.verifier p (signalsList sig) = true →
      sig.hashedSecret ≠ st.hashedSecretConfig →
      computeActionHash t v d ≠ sig.actionHash →
      executeW env st t v d p sig = .error .ActionHashMismatch) ∧
    (env.verifier p (signalsList sig) = true →
      sig.hashedSecret ≠ st.hashedSecretConfig →
      computeActionHash t v d = sig.actionHash →
      sig.txNonce ∈ st.usedNonces →
      executeW env st t v d p sig = .error .NonceReused) ∧
    (∀ e, executeW env st t v d p sig = .error e →
      stepW env st (.execute t v d p sig) = st) := by
  refine ⟨fun hv => ?_, fun hv hs => ?_, fun hv hs ha => ?_,
    fun hv hs ha hn => executeW_used_nonce_reused hv hs ha hn, fun e h => ?_⟩
  · simp [executeW, hv]
  · simp [executeW, hv, hs]
  · simp [executeW, hv, hs, ha]
  · dsimp only [stepW]
    rw [h]

/-- Closed witness for C2: a false-verifier call fails InvalidProof, and
with hashedSecretConfig = 777 a proof whose hashedSecret is 777 fails
InvalidHashedSecret even though its action-hash signal (1000) does not
match the executed triple. -/
theorem executeW_check_order_witness :
    executeW ⟨fun _ _ => false, fun _ _ _ => true⟩ ⟨1, 2, 777, []⟩ 3 0 []
      ⟨[1, 2], [[3, 4], [5, 6]], [7, 8]⟩ ⟨777, 0, 0, 1000, 42⟩ =
      .error .InvalidProof ∧
    executeW ⟨fun _ _ => true, fun _ _ _ => true⟩ ⟨1, 2, 777, []⟩ 3 0 []
      ⟨[1, 2], [[3, 4], [5, 6]], [7, 8]⟩ ⟨777, 0, 0, 1000, 42⟩ =
      .error .InvalidHashedSecret := by
  constructor
  · exact (executeW_check_order ⟨fun _ _ => false, fun _ _ _ => true⟩ ⟨1, 2, 777, []⟩ 3 0 []
      ⟨[1, 2], [[3, 4], [5, 6]], [7, 8]⟩ ⟨777, 0, 0, 1000, 42⟩).1 rfl
  · exact (executeW_check_order ⟨fun _ _ => true, fun _ _ _ => true⟩ ⟨1, 2, 777, []⟩ 3 0 []
      ⟨[1, 2], [[3, 4], [5, 6]], [7, 8]⟩ ⟨777, 0, 0, 1000, 42⟩).2.1 rfl rfl

/-! ## C3: owner-only administration -/

/-- Claim C3 (spec-modelled: zkOTPWallet.sol is absent from the tree; §4.5
fixes owner-only as the single consistent rule): setOwner, setAdmin and
setHashedSecretConfig succeed only for the owner — any other caller is
rejected with no change to owner, admin or hashedSecretConfig — and each
successful call emits a change event carrying the old and the new value. -/
theorem wallet_admin_owner_only (st : WalletState) (caller x : Nat) :
    (caller ≠ st.owner →
      setOwnerW st caller x = .error .NotOwner ∧
      setAdminW st caller x = .error .NotOwner ∧
      setHashedSecretConfigW st caller x = .error .NotOwner ∧
      (∀ env, stepW env st (.setOwner caller x) = st) ∧
      (∀ env, stepW env st (.setAdmin caller x) = st) ∧
      (∀ env, stepW env st (.setHashedSecretConfig caller x) = st)) ∧
    (caller = st.owner →
      setOwnerW st caller x =
        .ok ({ st with owner := x }, [WalletEvent.OwnerChanged st.owner x]) ∧
      setAdminW st caller x =
        .ok ({ st with admin := x }, [WalletEvent.AdminChanged st.admin x]) ∧
      setHashedSecretConfigW st caller x =
        .ok ({ st with hashedSecretConfig := x },
          [WalletEvent.HashedSecretConfigChanged st.hashedSecretConfig x])) := by
  constructor
  · intro h
    refine ⟨?_, ?_, ?_, fun env => ?_, fun env => ?_, fun env => ?_⟩
    · simp [setOwnerW, h]
    · simp [setAdminW, h]
    · simp [setHashedSecretConfigW, h]
    · dsimp only [stepW]
      rw [show setOwnerW st caller x = .error .NotOwner by simp [setOwnerW, h]]
    · dsimp only [stepW]
      rw [show setAdminW st caller x = .error .NotOwner by simp [setAdminW, h]]
    · dsimp only [stepW]
      rw [show setHashedSecretConfigW st caller x = .error .NotOwner by
        simp [setHashedSecretConfigW, h]]
  · intro h
    exact ⟨by simp [setOwnerW, h], by simp [setAdminW, h],
      by simp [setHashedSecretConfigW, h]⟩

/-- Closed witness for C3: a non-owner caller (3) is rejected on all three
operations and an owner caller (1) succeeds with (old, new) events. -/
theorem wallet_admin_owner_only_witness :
    setOwnerW ⟨1, 2, 0, []⟩ 3 9 = .error .NotOwner ∧
    setAdminW ⟨1, 2, 0, []⟩ 3 9 = .error .NotOwner ∧
    setHashedSecretConfigW ⟨1, 2, 0, []⟩ 3 9 = .error .NotOwner ∧
    setOwnerW ⟨1, 2, 0, []⟩ 1 9 = .ok (⟨9, 2, 0, []⟩, [WalletEvent.OwnerChanged 1 9]) ∧
    setAdminW ⟨1, 2, 0, []⟩ 1 9 = .ok (⟨1, 9, 0, []⟩, [WalletEvent.AdminChanged 2 9]) ∧
    setHashedSecretConfigW ⟨1, 2, 0, []⟩ 1 9 =
      .ok (⟨1, 2, 9, []⟩, [WalletEvent.HashedSecretConfigChanged 0 9]) := by
  have h1 := (wallet_admin_owner_only ⟨1, 2, 0, []⟩ 3 9).1 (by decide)
  have h2 := (wallet_admin_owner_only ⟨1, 2, 0, []⟩ 1 9).2 rfl
  exact ⟨h1.1, h1.2.1, h1.2.2.1, h2.1, h2.2.1, h2.2.2⟩

/-! ## C1: nonce single-use across call sequences -/

/-- The concrete environment of the nonce scenarios: an always-true
verifying oracle and a succeeding target call. -/
def cEnv : WalletEnv := ⟨fun _ _ => true, fun _ _ _ => true⟩

/-- A dummy transported proof. -/
def cPrf : ProofABC := ⟨[1, 2], [[3, 4], [5, 6]], [7, 8]⟩

/-- Initial wallet state: owner 1, admin 2, config 0, no used nonce. -/
def cSt0 : WalletState := ⟨1, 2, 0, []⟩

/-- Signals binding the triple (0, 0, []) under nonce 42. -/
def cSig : PublicSignals := ⟨9999, 0, 0, computeActionHash 0 0 [], 42⟩

/-- Counterexample to claim C1 as stated: after a successful execute with
nonce 42, a later execute carrying the same nonce but a different payload
fails with ActionHashMismatch — not NonceReused — because the nonce check
runs last. -/
theorem executeW_replay_mismatched_payload_error :
    executeW cEnv cSt0 0 0 [] cPrf cSig =
      .ok (⟨1, 2, 0, [42]⟩, [ExecStep.NonceMarked 42, ExecStep.TargetCalled 0 0 []]) ∧
    executeW cEnv ⟨1, 2, 0, [42]⟩ 0 0 [1] cPrf cSig = .error .ActionHashMismatch ∧
    (Except.error WalletError.ActionHashMismatch :
      Except WalletError (WalletState × List ExecStep)) ≠ .error .NonceReused := by
  refine ⟨by decide, by decide, by decide⟩

/-- Claim C1, amended: once an execute with a given txNonce has succeeded,
no later execute carrying that txNonce can ever succeed, whatever calls
happen in between and whatever target, value and payload the later call
uses; when the later call passes the proof, hashed-secret and action-hash
checks it fails precisely with NonceReused; and the success trace marks
the nonce used before the target call is invoked. -/
theorem executeW_nonce_single_use (env : WalletEnv) (st : WalletState)
    (t v : Nat) (d : List Nat) (p : ProofABC) (sig : PublicSignals)
    (r : WalletState × List ExecStep) (ops : List WalletOp)
    (t2 v2 : Nat) (d2 : List Nat) (p2 : ProofABC) (sig2 : PublicSignals)
    (hok : executeW env st t v d p sig = .ok r)
    (hn : sig2.txNonce = sig.txNonce) :
    (∀ r2, executeW env (runW env r.1 ops) t2 v2 d2 p2 sig2 ≠ .ok r2) ∧
    (env.verifier p2 (signalsList sig2) = true →
      sig2.hashedSecret ≠ (runW env r.1 ops).hashedSecretConfig →
      computeActionHash t2 v2 d2 = sig2.actionHash →
      executeW env (runW env r.1 ops) t2 v2 d2 p2 sig2 = .error .NonceReused) ∧
    r.2 = [ExecStep.NonceMarked sig.txNonce, ExecStep.TargetCalled t v d] := by
  have hst := executeW_ok_spec hok
  have hmem : sig2.txNonce ∈ (runW env r.1 ops).usedNonces := by
    apply runW_preserves_nonces
    rw [hst.1, hn]
    exact List.mem_cons_self _ _
  exact ⟨executeW_used_nonce_not_ok hmem,
    fun hv hs ha => executeW_used_nonce_reused hv hs ha hmem, hst.2.2⟩

/-- Closed witness for the amended C1: replaying the very same call after
the successful execute fails with NonceReused. -/
theorem executeW_nonce_single_use_witness :
    executeW cEnv (runW cEnv (⟨1, 2, 0, [42]⟩ : WalletState) []) 0 0 [] cPrf cSig =
      .error .NonceReused := by
  exact (executeW_nonce_single_use cEnv cSt0 0 0 [] cPrf cSig
    (⟨1, 2, 0, [42]⟩, [ExecStep.NonceMarked 42, ExecStep.TargetCalled 0 0 []]) []
    0 0 [] cPrf cSig (by decide) rfl).2.1 rfl (by decide) rfl

/-! ## C8: registration exactly-once -/

/-- An absent account id means no row passes the uid filter. -/
theorem storeGet_none_filter {store : Store} {uid : String}
    (h : storeGet store uid = none) :
    store.filter (fun p => p.1 = uid) = [] := by
  rw [List.filter_eq_nil_iff]
  intro p hp hpu
  have : store.find? (fun p => p.1 = uid) ≠ none := by
    intro hn
    rw [List.find?_eq_none] at hn
    exact hn p hp hpu
  unfold storeGet at h
  rcases hf : store.find? (fun p => p.1 = uid) with _ | q
  · exact this hf
  · rw [hf] at h
    simp at h

/-- Counterexample to claim C8 as stated: the part_008 variant
`POST /user/register` performs no existence check — a second register for
the same id succeeds (no already-exists error) and replaces the stored
blob.  The encryption parameter is instantiated with a stub since the
overwrite happens regardless of the ciphertext. -/
theorem registerFirestore_overwrites :
    registerUserFirestore (fun s _ => s) [] "alice" "S3CR3T" =
      ([("alice", "S3CR3T")], .registered) ∧
    registerUserFirestore (fun s _ => s) [("alice", "S3CR3T")] "alice" "other" =
      ([("alice", "other")], .registered) ∧
    RegisterResult.registered ≠ .alreadyExists "User already exists" ∧
    storeGet [("alice", "other")] "alice" ≠ some "S3CR3T" := by
  refine ⟨by decide, by decide, by decide, by decide⟩

/-- Claim C8, amended: the app.js variant `POST /registerUser` is
exactly-once — a first register for an absent id succeeds and makes
checkRegistered report registered, and every repeat register for that id
fails with "User already exists" leaving the store unchanged — while the
part_008 variant `POST /user/register` has no existence check: a repeat
register succeeds and overwrites the stored encrypted blob. -/
theorem register_exactly_once_variants :
    (∀ (encrypt : String → String → String) (store : Store) (uid secret secret2 : String),
      uid ≠ "" → secret ≠ "" → secret2 ≠ "" →
      storeGet store uid = none →
      (registerUserSupabase encrypt store uid secret).2 = .registered ∧
      checkRegistered (registerUserSupabase encrypt store uid secret).1 uid = true ∧
      registerUserSupabase encrypt (registerUserSupabase encrypt store uid secret).1 uid secret2 =
        ((registerUserSupabase encrypt store uid secret).1,
          .alreadyExists "User already exists")) ∧
    (∀ (encrypt : String → String → String) (uid secret secret2 : String),
      uid ≠ "" → secret ≠ "" → secret2 ≠ "" →
      (registerUserFirestore encrypt
        (registerUserFirestore encrypt [] uid secret).1 uid secret2).2 = .registered ∧
      storeGet (registerUserFirestore encrypt
        (registerUserFirestore encrypt [] uid secret).1 uid secret2).1 uid =
        some (encrypt secret2 uid)) := by
  constructor
  · intro encrypt store uid secret secret2 hu hs hs2 hget
    have hfil := storeGet_none_filter hget
    have hreg : registerUserSupabase encrypt store uid secret =
        (store ++ [(uid, encrypt secret uid)], .registered) := by
      unfold registerUserSupabase
      simp [hu, hs, hfil]
    refine ⟨by rw [hreg], ?_, ?_⟩
    · rw [hreg]
      unfold checkRegistered storeGet
      rw [List.find?_append]
      unfold storeGet at hget
      rcases hf : store.find? (fun p => p.1 = uid) with _ | q
      · simp
      · rw [hf] at hget
        simp at hget
    · rw [hreg]
      unfold registerUserSupabase
      simp [hu, hs2, List.filter_append, hfil]
  · intro encrypt uid secret secret2 hu hs hs2
    have h1 : registerUserFirestore encrypt [] uid secret =
        ([(uid, encrypt secret uid)], .registered) := by
      unfold registerUserFirestore
      simp [hu, hs]
    rw [h1]
    have h2 : registerUserFirestore encrypt [(uid, encrypt secret uid)] uid secret2 =
        ([(uid, encrypt secret2 uid)], .registered) := by
      unfold registerUserFirestore
      simp [hu, hs2]
    rw [h2]
    exact ⟨rfl, by simp [storeGet]⟩

/-- Closed witness for the amended C8 at concrete ids and secrets. -/
theorem register_exactly_once_variants_witness :
    ((registerUserSupabase (fun s _ => s) [] "alice" "S3CR3T").2 = .registered ∧
      checkRegistered (registerUserSupabase (fun s _ => s) [] "alice" "S3CR3T").1 "alice" = true ∧
      registerUserSupabase (fun s _ => s)
        (registerUserSupabase (fun s _ => s) [] "alice" "S3CR3T").1 "alice" "other" =
        ((registerUserSupabase (fun s _ => s) [] "alice" "S3CR3T").1,
          .alreadyExists "User already exists")) ∧
    ((registerUserFirestore (fun s _ => s)
        (registerUserFirestore (fun s _ => s) [] "alice" "S3CR3T").1 "alice" "other").2 =
        .registered ∧
      storeGet (registerUserFirestore (fun s _ => s)
        (registerUserFirestore (fun s _ => s) [] "alice" "S3CR3T").1 "alice" "other").1 "alice" =
        some "other") := by
  constructor
  · exact register_exactly_once_variants.1 (fun s _ => s) [] "alice" "S3CR3T" "other"
      (by decide) (by decide) (by decide) (by decide)
  · exact register_exactly_once_variants.2 (fun s _ => s) "alice" "S3CR3T" "other"
      (by decide) (by decide) (by decide)

/-! ## C6: the OTP engine against the standard reference computation -/

/-- Disjoint-bit or is addition: or-ing a left-shift with a value that
fits below the shift amount adds it. -/
theorem lor_shiftLeft_add {n : Nat} (x y : Nat) (hy : y < 2 ^ n) :
    (x <<< n) ||| y = x <<< n + y := by
  apply Nat.eq_of_testBit_eq
  intro j
  rw [Nat.testBit_lor, Nat.testBit_shiftLeft, Nat.shiftLeft_eq, Nat.mul_comm,
    Nat.testBit_mul_pow_two_add x hy j]
  by_cases hj : j < n
  · simp [hj, Nat.not_le.mpr hj]
  · have hyj : y.testBit j = false :=
      Nat.testBit_eq_false_of_lt
        (lt_of_lt_of_le hy (Nat.pow_le_pow_right (by norm_num) (Nat.le_of_not_lt hj)))
    simp [hj, hyj, Nat.le_of_not_lt hj]

/-- Every byte produced by the big-endian serializer is below 256. -/
theorem beBytes_lt (w n : Nat) : ∀ b ∈ beBytes w n, b < 256 := by
  intro b hb
  simp only [beBytes, List.mem_map, List.mem_range] at hb
  obtain ⟨i, _, rfl⟩ := hb
  have h3 := Nat.and_lt_two_pow (n >>> (8 * (w - 1 - i))) (show (255 : Nat) < 2 ^ 8 by norm_num)
  norm_num at h3
  exact h3

/-- `getD` with default 0 on a list of bytes stays below 256. -/
theorem getD_lt_of_forall_lt {l : List Nat} (h : ∀ b ∈ l, b < 256) (k : Nat) :
    l.getD k 0 < 256 := by
  by_cases hk : k < l.length
  · rw [List.getD_eq_getElem _ _ hk]
    exact h _ (List.getElem_mem hk)
  · rw [List.getD_eq_default _ _ (Nat.le_of_not_lt hk)]
    norm_num

/-- SHA-1 digests consist of bytes. -/
theorem sha1_bytes_lt (msg : List Nat) : ∀ b ∈ sha1 msg, b < 256 := by
  intro b hb
  simp only [sha1, List.mem_flatMap] at hb
  obtain ⟨w, _, hbw⟩ := hb
  exact beBytes_lt 4 w b hbw

/-- HMAC-SHA1 digests consist of bytes. -/
theorem hmacSha1_bytes_lt (key msg : List Nat) : ∀ b ∈ hmacSha1 key msg, b < 256 := by
  intro b hb
  exact sha1_bytes_lt _ b hb

/-- The JavaScript dynamic-truncation bit operations agree with the
arithmetic reading: big-endian word of the four bytes, top bit cleared. -/
theorem dynamic_truncation_bridge (a b c d : Nat) (_ha : a < 256) (hb : b < 256)
    (hc : c < 256) (hd : d < 256) :
    ((a &&& 127) <<< 24) ||| ((b &&& 255) <<< 16) ||| ((c &&& 255) <<< 8) ||| (d &&& 255) =
      (a * 2 ^ 24 + b * 2 ^ 16 + c * 2 ^ 8 + d) % 2 ^ 31 := by
  have hb' : b &&& 255 = b := by
    rw [show (255 : Nat) = 2 ^ 8 - 1 by norm_num, Nat.and_pow_two_sub_one_of_lt_two_pow hb]
  have hc' : c &&& 255 = c := by
    rw [show (255 : Nat) = 2 ^ 8 - 1 by norm_num, Nat.and_pow_two_sub_one_of_lt_two_pow hc]
  have hd' : d &&& 255 = d := by
    rw [show (255 : Nat) = 2 ^ 8 - 1 by norm_num, Nat.and_pow_two_sub_one_of_lt_two_pow hd]
  have ha' : a &&& 127 = a % 128 := by
    rw [show (127 : Nat) = 2 ^ 7 - 1 by norm_num, Nat.and_pow_two_sub_one_eq_mod]
  rw [hb', hc', hd', ha', Nat.lor_assoc, Nat.lor_assoc]
  rw [lor_shiftLeft_add c d (by omega : d < 2 ^ 8)]
  have h1 : c <<< 8 + d < 2 ^ 16 := by
    rw [Nat.shiftLeft_eq]
    norm_num
    omega
  rw [lor_shiftLeft_add b _ h1]
  have h2 : b <<< 16 + (c <<< 8 + d) < 2 ^ 24 := by
    rw [Nat.shiftLeft_eq, Nat.shiftLeft_eq]
    norm_num
    omega
  rw [lor_shiftLeft_add (a % 128) _ h2]
  rw [Nat.shiftLeft_eq, Nat.shiftLeft_eq, Nat.shiftLeft_eq]
  have e24 : (2 : Nat) ^ 24 = 16777216 := by norm_num
  have e16 : (2 : Nat) ^ 16 = 65536 := by norm_num
  have e8 : (2 : Nat) ^ 8 = 256 := by norm_num
  have e31 : (2 : Nat) ^ 31 = 2147483648 := by norm_num
  rw [e24, e16, e8, e31]
  omega

/-- Claim C6: for every secret byte sequence and every time step in the
8-byte range, `computeTOTP6` equals the standard OTP reference
computation — HMAC-SHA1 of the 8-byte big-endian time step, dynamic
truncation (offset = low nibble of the final digest byte, 4 bytes read
big-endian at that offset, top bit cleared), reduced mod 1,000,000 — the
result lies in [0, 1,000,000), and repeated calls on the same inputs are
deterministic. -/
theorem computeTOTP6_reference (secretBytes : List Nat) (timeStep : Nat)
    (_hsec : ∀ b ∈ secretBytes, b < 256) (_hts : timeStep < 2 ^ 64) :
    computeTOTP6 secretBytes timeStep = specOtpCode secretBytes timeStep ∧
    computeTOTP6 secretBytes timeStep < 1000000 ∧
    computeTOTP6 secretBytes timeStep = computeTOTP6 secretBytes timeStep := by
  refine ⟨?_, ?_, rfl⟩
  · simp only [computeTOTP6, specOtpCode]
    have hbytes := hmacSha1_bytes_lt secretBytes (beBytes 8 timeStep)
    have hoff : ((hmacSha1 secretBytes (beBytes 8 timeStep)).getD 19 0) &&& 0x0f =
        ((hmacSha1 secretBytes (beBytes 8 timeStep)).getD 19 0) % 16 := by
      rw [show (0x0f : Nat) = 2 ^ 4 - 1 by norm_num, Nat.and_pow_two_sub_one_eq_mod]
    rw [hoff]
    exact congrArg (fun z => z % 1000000)
      (dynamic_truncation_bridge _ _ _ _
        (getD_lt_of_forall_lt hbytes _) (getD_lt_of_forall_lt hbytes _)
        (getD_lt_of_forall_lt hbytes _) (getD_lt_of_forall_lt hbytes _))
  · unfold computeTOTP6
    exact Nat.mod_lt _ (by norm_num)

/-- Closed witness for C6 at the RFC 4226 reference secret
"12345678901234567890" and time step 0; the last conjunct checks the
published reference value 755224. -/
theorem computeTOTP6_reference_witness :
    computeTOTP6 [49, 50, 51, 52, 53, 54, 55, 56, 57, 48, 49, 50, 51, 52, 53, 54, 55, 56, 57, 48] 0 =
      specOtpCode [49, 50, 51, 52, 53, 54, 55, 56, 57, 48, 49, 50, 51, 52, 53, 54, 55, 56, 57, 48] 0 ∧
    computeTOTP6 [49, 50, 51, 52, 53, 54, 55, 56, 57, 48, 49, 50, 51, 52, 53, 54, 55, 56, 57, 48] 0 <
      1000000 ∧
    computeTOTP6 [49, 50, 51, 52, 53, 54, 55, 56, 57, 48, 49, 50, 51, 52, 53, 54, 55, 56, 57, 48] 0 =
      755224 := by
  have h := computeTOTP6_reference
    [49, 50, 51, 52, 53, 54, 55, 56, 57, 48, 49, 50, 51, 52, 53, 54, 55, 56, 57, 48] 0
    (by decide) (by norm_num)
  exact ⟨h.1, h.2.1, by decide⟩

/-! ## C4: the action hash -/

/-- Each little-endian lane byte is below 256. -/
theorem laneToBytesLE_lt (x : Nat) : ∀ b ∈ laneToBytesLE x, b < 256 := by
  intro b hb
  simp only [laneToBytesLE, List.mem_map, List.mem_range] at hb
  obtain ⟨i, _, rfl⟩ := hb
  have h3 := Nat.and_lt_two_pow (x >>> (8 * i)) (show (255 : Nat) < 2 ^ 8 by norm_num)
  norm_num at h3
  exact h3

/-- A keccak-256 digest has 32 bytes. -/
theorem keccak256_length (msg : List Nat) : (keccak256 msg).length = 32 := by
  simp [keccak256, laneToBytesLE]

/-- Keccak-256 digests consist of bytes. -/
theorem keccak256_bytes_lt (msg : List Nat) : ∀ b ∈ keccak256 msg, b < 256 := by
  intro b hb
  simp only [keccak256, List.append_assoc, List.mem_append] at hb
  rcases hb with hb | hb | hb | hb <;> exact laneToBytesLE_lt _ b hb

/-- The big-endian byte fold is bounded by the byte width. -/
theorem foldlBE_lt : ∀ (bs : List Nat) (a k : Nat), (∀ b ∈ bs, b < 256) → a < 2 ^ k →
    bs.foldl (fun x b => (x <<< 8) + b) a < 2 ^ (k + 8 * bs.length) := by
  intro bs
  induction bs with
  | nil => intro a k _ ha; simpa using ha
  | cons b bs ih =>
    intro a k h ha
    have he : k + 8 * (b :: bs).length = (k + 8) + 8 * bs.length := by
      simp [List.length_cons]
      omega
    rw [List.foldl_cons, he]
    apply ih _ _ (fun x hx => h x (List.mem_cons_of_mem _ hx))
    have hb : b < 256 := h b (List.mem_cons_self _ _)
    have hp : (2 : Nat) ^ (k + 8) = 2 ^ k * 256 := by rw [pow_add]; norm_num
    rw [Nat.shiftLeft_eq, hp]
    have : (2 : Nat) ^ 8 = 256 := by norm_num
    rw [this]
    nlinarith [ha, hb]

/-- `bytesToBigIntBE` of a byte list is below `2 ^ (8 · length)`. -/
theorem bytesToBigIntBE_lt (bs : List Nat) (h : ∀ b ∈ bs, b < 256) :
    bytesToBigIntBE bs < 2 ^ (8 * bs.length) := by
  have := foldlBE_lt bs 0 0 h (by norm_num)
  simpa [bytesToBigIntBE] using this

/-- Counterexample to claim C4 as stated: the action hash is NOT reduced
into the field-sized range — at the zero address with value 0 and empty
payload the returned keccak value already exceeds the field order P. -/
theorem computeActionHash_exceeds_field_order :
    computeActionHash 0 0 [] =
      76181730938387481504298103224485865201289833135200371729261377095349320967255 ∧
    fieldP ≤ computeActionHash 0 0 [] := by
  exact ⟨by decide, by decide⟩

/-- Claim C4, amended: for every (target, value, payload) triple, the
action hash equals keccak-256 of the tight unpadded concatenation of the
20-byte target identifier, the 32-byte big-endian value and the payload,
returned as the raw 256-bit digest value (below `2 ^ 256`) WITHOUT a
reduction modulo the field order P. -/
theorem computeActionHash_keccak_unreduced (toAddr value : Nat) (data : List Nat) :
    computeActionHash toAddr value data = specActionHash toAddr value data ∧
    computeActionHash toAddr value data < 2 ^ 256 := by
  refine ⟨rfl, ?_⟩
  have h := bytesToBigIntBE_lt (keccak256 (solidityPack toAddr value data))
    (keccak256_bytes_lt _)
  rw [keccak256_length] at h
  exact h

/-! ## C7: secret-vault round trip — base64 infrastructure -/

/-- Splitting at an occurrence of the separator, when the prefix is free of
it, peels off the prefix. -/
theorem splitOnByte_append_sep (sep : Nat) (xs ys : List Nat)
    (h : sep ∉ xs) :
    splitOnByte sep (xs ++ sep :: ys) = xs :: splitOnByte sep ys := by
  induction xs with
  | nil => simp [splitOnByte]
  | cons x xs ih =>
    have hx : x ≠ sep := fun he => h (he ▸ List.mem_cons_self _ _)
    have ih' := ih (fun hm => h (List.mem_cons_of_mem _ hm))
    simp only [List.cons_append, splitOnByte, if_neg hx, List.append_eq]
    rw [ih']
    simp

/-- Splitting a separator-free byte sequence yields it whole. -/
theorem splitOnByte_no_sep (sep : Nat) (xs : List Nat) (h : sep ∉ xs) :
    splitOnByte sep xs = [xs] := by
  induction xs with
  | nil => rfl
  | cons x xs ih =>
    have hx : x ≠ sep := fun he => h (he ▸ List.mem_cons_self _ _)
    have ih' := ih (fun hm => h (List.mem_cons_of_mem _ hm))
    simp only [splitOnByte, if_neg hx]
    rw [ih']
    simp

/-- Base64 alphabet bytes are never the colon (58). -/
theorem b64char_ne_58 (n : Nat) : b64char n ≠ 58 := by
  by_cases h : n < 64
  · have hall : ∀ m, m < 64 → b64char m ≠ 58 := by decide
    exact hall n h
  · unfold b64char
    rw [List.getD_eq_default]
    · decide
    · have : b64alphabet.length = 64 := by decide
      omega

/-- Base64 alphabet bytes are never the padding byte (61). -/
theorem b64char_ne_61 (n : Nat) : b64char n ≠ 61 := by
  by_cases h : n < 64
  · have hall : ∀ m, m < 64 → b64char m ≠ 61 := by decide
    exact hall n h
  · unfold b64char
    rw [List.getD_eq_default]
    · decide
    · have : b64alphabet.length = 64 := by decide
      omega

/-- Decoding one alphabet byte recovers its 6-bit value. -/
theorem b64value_char (n : Nat) (h : n < 64) : b64value (b64char n) = n := by
  have hall : ∀ m, m < 64 → b64value (b64char m) = m := by decide
  exact hall n h

/-- Every byte of a base64 encoding is either an alphabet byte or padding;
in particular none is the colon. -/
theorem b64encode_ne_58 (bs : List Nat) : (58 : Nat) ∉ b64encode bs := by
  induction bs using b64encode.induct with
  | case1 => simp [b64encode]
  | case2 b1 =>
    simp only [b64encode, List.mem_cons]
    rintro (h | h | h | h | h) <;> first
      | exact b64char_ne_58 _ h.symm
      | simp_all
  | case3 b1 b2 =>
    simp only [b64encode, List.mem_cons]
    rintro (h | h | h | h | h) <;> first
      | exact b64char_ne_58 _ h.symm
      | simp_all
  | case4 b1 b2 b3 rest ih =>
    simp only [b64encode, List.mem_cons]
    rintro (h | h | h | h | h) <;> first
      | exact b64char_ne_58 _ h.symm
      | exact ih h

/-- A base64 encoding is empty only for the empty byte sequence. -/
theorem b64encode_nil_iff (bs : List Nat) : b64encode bs = [] ↔ bs = [] := by
  constructor
  · intro h
    cases bs with
    | nil => rfl
    | cons b1 t =>
      cases t with
      | nil => simp [b64encode] at h
      | cons b2 t2 =>
        cases t2 with
        | nil => simp [b64encode] at h
        | cons b3 rest => simp [b64encode] at h
  · rintro rfl
    rfl

/-- `x &&& 3` as a remainder. -/
theorem and_three (a : Nat) : a &&& 3 = a % 4 := by
  have := Nat.and_pow_two_sub_one_eq_mod a 2
  norm_num at this
  exact this

/-- `x &&& 15` as a remainder. -/
theorem and_fifteen (a : Nat) : a &&& 15 = a % 16 := by
  have := Nat.and_pow_two_sub_one_eq_mod a 4
  norm_num at this
  exact this

/-- `x &&& 63` as a remainder. -/
theorem and_sixtythree (a : Nat) : a &&& 63 = a % 64 := by
  have := Nat.and_pow_two_sub_one_eq_mod a 6
  norm_num at this
  exact this

/-- `x &&& 255` as a remainder. -/
theorem and_twofiftyfive (a : Nat) : a &&& 255 = a % 256 := by
  have := Nat.and_pow_two_sub_one_eq_mod a 8
  norm_num at this
  exact this

/-- Or-with-shift as multiply-add, for the base64 bit algebra. -/
theorem lor_eq_add (x y n : Nat) (hy : y < 2 ^ n) :
    (x <<< n) ||| y = x * 2 ^ n + y := by
  rw [lor_shiftLeft_add x y hy, Nat.shiftLeft_eq]

/-- Evaluation of the decoder on a fully padded final quantum. -/
theorem b64decode_pad2 (c1 c2 : Nat) :
    b64decode [c1, c2, 61, 61] = [(b64value c1 <<< 2) ||| (b64value c2 >>> 4)] := rfl

/-- Evaluation of the decoder on a one-padding final quantum. -/
theorem b64decode_pad1 (c1 c2 c3 : Nat) (h : c3 ≠ 61) :
    b64decode [c1, c2, c3, 61] =
      [(b64value c1 <<< 2) ||| (b64value c2 >>> 4),
       ((b64value c2 &&& 15) <<< 4) ||| (b64value c3 >>> 2)] := by
  simp [b64decode, h]

/-- Evaluation of the decoder on an unpadded quantum. -/
theorem b64decode_group (c1 c2 c3 c4 : Nat) (rest : List Nat)
    (h3 : c3 ≠ 61) (h4 : c4 ≠ 61) :
    b64decode (c1 :: c2 :: c3 :: c4 :: rest) =
      ((b64value c1 <<< 2) ||| (b64value c2 >>> 4)) ::
      (((b64value c2 &&& 15) <<< 4) ||| (b64value c3 >>> 2)) ::
      (((b64value c3 &&& 3) <<< 6) ||| b64value c4) :: b64decode rest := by
  simp [b64decode, h3, h4]

/-- Decoding inverts encoding on byte sequences. -/
theorem b64_roundtrip (bs : List Nat) (h : ∀ b ∈ bs, b < 256) :
    b64decode (b64encode bs) = bs := by
  induction bs using b64encode.induct with
  | case1 => rfl
  | case2 b1 =>
    have h1 : b1 < 256 := h b1 (by simp)
    have hv1 : b64value (b64char (b1 >>> 2)) = b1 >>> 2 := by
      apply b64value_char
      rw [Nat.shiftRight_eq_div_pow]
      omega
    have hv2 : b64value (b64char ((b1 &&& 3) <<< 4)) = (b1 &&& 3) <<< 4 := by
      apply b64value_char
      rw [and_three, Nat.shiftLeft_eq]
      omega
    simp only [b64encode]
    rw [b64decode_pad2, hv1, hv2, and_three]
    rw [show ((b1 % 4) <<< 4) >>> 4 = b1 % 4 from by
      rw [Nat.shiftLeft_eq, Nat.shiftRight_eq_div_pow]; omega]
    rw [lor_eq_add (b1 >>> 2) (b1 % 4) 2 (by omega)]
    rw [Nat.shiftRight_eq_div_pow]
    exact congrArg (fun z => [z]) (by omega)
  | case3 b1 b2 =>
    have h1 : b1 < 256 := h b1 (by simp)
    have h2 : b2 < 256 := h b2 (by simp)
    have hc3 := b64char_ne_61 ((b2 &&& 15) <<< 2)
    have hv1 : b64value (b64char (b1 >>> 2)) = b1 >>> 2 := by
      apply b64value_char
      rw [Nat.shiftRight_eq_div_pow]
      omega
    have hv2 : b64value (b64char (((b1 &&& 3) <<< 4) ||| (b2 >>> 4))) =
        ((b1 &&& 3) <<< 4) ||| (b2 >>> 4) := by
      apply b64value_char
      rw [and_three, Nat.shiftRight_eq_div_pow,
        lor_eq_add (b1 % 4) (b2 / 2 ^ 4) 4 (by omega)]
      omega
    have hv3 : b64value (b64char ((b2 &&& 15) <<< 2)) = (b2 &&& 15) <<< 2 := by
      apply b64value_char
      rw [and_fifteen, Nat.shiftLeft_eq]
      omega
    simp only [b64encode]
    rw [b64decode_pad1 _ _ _ hc3, hv1, hv2, hv3]
    simp only [and_three, and_fifteen]
    rw [lor_eq_add (b1 % 4) (b2 >>> 4) 4 (by rw [Nat.shiftRight_eq_div_pow]; omega)]
    rw [show (b1 % 4 * 2 ^ 4 + b2 >>> 4) >>> 4 = b1 % 4 from by
      rw [Nat.shiftRight_eq_div_pow, Nat.shiftRight_eq_div_pow]; omega]
    rw [lor_eq_add (b1 >>> 2) (b1 % 4) 2 (by omega)]
    rw [show (b1 % 4 * 2 ^ 4 + b2 >>> 4) % 16 = b2 >>> 4 from by
      rw [Nat.shiftRight_eq_div_pow]; omega]
    rw [show ((b2 % 16) <<< 2) >>> 2 = b2 % 16 from by
      rw [Nat.shiftLeft_eq, Nat.shiftRight_eq_div_pow]; omega]
    rw [lor_eq_add (b2 >>> 4) (b2 % 16) 4 (by omega)]
    rw [Nat.shiftRight_eq_div_pow, Nat.shiftRight_eq_div_pow]
    simp only [List.cons.injEq]
    exact ⟨by omega, by omega, trivial⟩
  | case4 b1 b2 b3 rest ih =>
    have h1 : b1 < 256 := h b1 (by simp)
    have h2 : b2 < 256 := h b2 (by simp)
    have h3 : b3 < 256 := h b3 (by simp)
    have hrest : ∀ b ∈ rest, b < 256 := fun b hb => h b (by simp [hb])
    have hc3 := b64char_ne_61 (((b2 &&& 15) <<< 2) ||| (b3 >>> 6))
    have hc4 := b64char_ne_61 (b3 &&& 63)
    have hv1 : b64value (b64char (b1 >>> 2)) = b1 >>> 2 := by
      apply b64value_char
      rw [Nat.shiftRight_eq_div_pow]
      omega
    have hv2 : b64value (b64char (((b1 &&& 3) <<< 4) ||| (b2 >>> 4))) =
        ((b1 &&& 3) <<< 4) ||| (b2 >>> 4) := by
      apply b64value_char
      rw [and_three, Nat.shiftRight_eq_div_pow,
        lor_eq_add (b1 % 4) (b2 / 2 ^ 4) 4 (by omega)]
      omega
    have hv3 : b64value (b64char (((b2 &&& 15) <<< 2) ||| (b3 >>> 6))) =
        ((b2 &&& 15) <<< 2) ||| (b3 >>> 6) := by
      apply b64value_char
      rw [and_fifteen, Nat.shiftRight_eq_div_pow,
        lor_eq_add (b2 % 16) (b3 / 2 ^ 6) 2 (by omega)]
      omega
    have hv4 : b64value (b64char (b3 &&& 63)) = b3 &&& 63 := by
      apply b64value_char
      rw [and_sixtythree]
      omega
    simp only [b64encode]
    rw [b64decode_group _ _ _ _ _ hc3 hc4, hv1, hv2, hv3, hv4, ih hrest]
    simp only [and_three, and_fifteen, and_sixtythree]
    rw [lor_eq_add (b1 % 4) (b2 >>> 4) 4 (by rw [Nat.shiftRight_eq_div_pow]; omega)]
    rw [lor_eq_add (b2 % 16) (b3 >>> 6) 2 (by rw [Nat.shiftRight_eq_div_pow]; omega)]
    rw [show (b1 % 4 * 2 ^ 4 + b2 >>> 4) >>> 4 = b1 % 4 from by
      rw [Nat.shiftRight_eq_div_pow, Nat.shiftRight_eq_div_pow]; omega]
    rw [lor_eq_add (b1 >>> 2) (b1 % 4) 2 (by omega)]
    rw [show (b1 % 4 * 2 ^ 4 + b2 >>> 4) % 16 = b2 >>> 4 from by
      rw [Nat.shiftRight_eq_div_pow]; omega]
    rw [show (b2 % 16 * 2 ^ 2 + b3 >>> 6) >>> 2 = b2 % 16 from by
      rw [Nat.shiftRight_eq_div_pow, Nat.shiftRight_eq_div_pow]; omega]
    rw [lor_eq_add (b2 >>> 4) (b2 % 16) 4 (by omega)]
    rw [show (b2 % 16 * 2 ^ 2 + b3 >>> 6) % 4 = b3 >>> 6 from by
      rw [Nat.shiftRight_eq_div_pow]; omega]
    rw [lor_eq_add (b3 >>> 6) (b3 % 64) 6 (by omega)]
    rw [Nat.shiftRight_eq_div_pow, Nat.shiftRight_eq_div_pow, Nat.shiftRight_eq_div_pow]
    simp only [List.cons.injEq]
    refine ⟨by omega, by omega, by omega, trivial⟩


/-! ### AES/GCM structural lemmas -/

/-- flatMap with constant block length. -/
theorem flatMap_length_const {α : Type} (f : α → List Nat) (k : Nat) (l : List α)
    (h : ∀ a ∈ l, (f a).length = k) : (l.flatMap f).length = k * l.length := by
  induction l with
  | nil => simp
  | cons a l ih =>
    simp only [List.flatMap_cons, List.length_append, List.length_cons,
      h a (List.mem_cons_self _ _), ih (fun x hx => h x (List.mem_cons_of_mem _ hx))]
    ring

/-- Length of a snoc-style fold. -/
theorem foldl_snoc_length {γ : Type} (l : List γ) (acc : List Nat)
    (f : List Nat → γ → Nat) :
    (l.foldl (fun w i => w ++ [f w i]) acc).length = acc.length + l.length := by
  induction l generalizing acc with
  | nil => simp
  | cons a l ih =>
    rw [List.foldl_cons, ih]
    simp
    omega

/-- The big-endian serializer produces exactly `w` bytes. -/
theorem beBytes_length (w n : Nat) : (beBytes w n).length = w := by
  simp [beBytes]

/-- The AES-256 key schedule has 60 words. -/
theorem aesKeyExpansion_length (key : List Nat) : (aesKeyExpansion key).length = 60 := by
  unfold aesKeyExpansion
  rw [foldl_snoc_length]
  simp

/-- Each round key has 16 bytes. -/
theorem aesRoundKey_length (w : List Nat) (hw : w.length = 60) (r : Nat)
    (hr : r ≤ 14) : (aesRoundKey w r).length = 16 := by
  unfold aesRoundKey
  rw [flatMap_length_const _ 4 _ (fun a _ => beBytes_length 4 a)]
  simp [hw]
  omega

/-- An AES block-encryption output has 16 bytes. -/
theorem aesEncryptBlock_length (w : List Nat) (hw : w.length = 60)
    (block : List Nat) : (aesEncryptBlock w block).length = 16 := by
  unfold aesEncryptBlock
  rw [List.length_map]
  unfold addRoundKey
  rw [List.length_zipWith, aesRoundKey_length w hw 14 (by norm_num)]
  unfold shiftRows
  simp [shiftRowsTbl]

/-- AES block-encryption outputs consist of bytes (the final serialization
mask). -/
theorem aesEncryptBlock_bytes_lt (w block : List Nat) :
    ∀ b ∈ aesEncryptBlock w block, b < 256 := by
  intro b hb
  unfold aesEncryptBlock at hb
  rw [List.mem_map] at hb
  obtain ⟨a, _, rfl⟩ := hb
  have h3 := Nat.and_lt_two_pow a (show (255 : Nat) < 2 ^ 8 by norm_num)
  norm_num at h3
  exact h3

/-- The GCM keystream has exactly the requested length. -/
theorem gcmKeystream_length (w iv : List Nat) (hw : w.length = 60) (n : Nat) :
    (gcmKeystream w iv n).length = n := by
  unfold gcmKeystream
  rw [List.length_take]
  rw [flatMap_length_const _ 16 _ (fun a _ => aesEncryptBlock_length w hw _)]
  simp only [List.length_range]
  have := Nat.div_add_mod (n + 15) 16
  have h2 : (n + 15) % 16 < 16 := Nat.mod_lt _ (by norm_num)
  omega

/-- GCM keystream bytes are below 256. -/
theorem gcmKeystream_bytes_lt (w iv : List Nat) (n : Nat) :
    ∀ b ∈ gcmKeystream w iv n, b < 256 := by
  intro b hb
  unfold gcmKeystream at hb
  have hb2 := List.mem_of_mem_take hb
  rw [List.mem_flatMap] at hb2
  obtain ⟨i, _, hbi⟩ := hb2
  exact aesEncryptBlock_bytes_lt _ _ b hbi

/-- Xor of two bytes is a byte. -/
theorem xor_byte_lt {a b : Nat} (ha : a < 256) (hb : b < 256) : a ^^^ b < 256 := by
  have ha2 : a < 2 ^ 8 := by omega
  have hb2 : b < 2 ^ 8 := by omega
  have h3 := Nat.xor_lt_two_pow ha2 hb2
  norm_num at h3
  exact h3

/-- Pointwise xor of byte lists yields bytes. -/
theorem zipWith_xor_bytes (xs ys : List Nat) (hx : ∀ b ∈ xs, b < 256)
    (hy : ∀ b ∈ ys, b < 256) :
    ∀ b ∈ List.zipWith (fun a b => a ^^^ b) xs ys, b < 256 := by
  induction xs generalizing ys with
  | nil => intro b hb; simp at hb
  | cons x xs ih =>
    intro b hb
    cases ys with
    | nil => simp at hb
    | cons y ys =>
      rw [List.zipWith_cons_cons, List.mem_cons] at hb
      rcases hb with rfl | hb
      · exact xor_byte_lt (hx x (by simp)) (hy y (by simp))
      · exact ih _ (fun v hv => hx v (by simp [hv])) (fun v hv => hy v (by simp [hv])) b hb

/-- Xoring the same keystream twice recovers the plaintext. -/
theorem zipWith_xor_cancel (xs : List Nat) :
    ∀ ks : List Nat, xs.length ≤ ks.length →
      List.zipWith (fun a b => a ^^^ b) (List.zipWith (fun a b => a ^^^ b) xs ks) ks = xs := by
  induction xs with
  | nil => intro ks _; simp
  | cons x xs ih =>
    intro ks hk
    cases ks with
    | nil => simp at hk
    | cons k ks =>
      rw [List.zipWith_cons_cons, List.zipWith_cons_cons, Nat.xor_cancel_right]
      rw [ih ks (by simpa using hk)]

/-- The GCM CTR transform is an involution (same key, same IV). -/
theorem gcmCtr_involution (w iv pt : List Nat) (hw : w.length = 60) :
    gcmCtr w iv (gcmCtr w iv pt) = pt := by
  unfold gcmCtr
  have hlen : (List.zipWith (fun a b => a ^^^ b) pt (gcmKeystream w iv pt.length)).length =
      pt.length := by
    rw [List.length_zipWith, gcmKeystream_length w iv hw]
    simp
  rw [hlen]
  exact zipWith_xor_cancel pt _ (by rw [gcmKeystream_length w iv hw])

/-- The GCM tag has 16 bytes. -/
theorem gcmTag_length (w iv ct : List Nat) (hw : w.length = 60) :
    (gcmTag w iv ct).length = 16 := by
  unfold gcmTag
  rw [List.length_zipWith, aesEncryptBlock_length w hw, beBytes_length]
  rfl

/-- GCM tag bytes are below 256. -/
theorem gcmTag_bytes_lt (w iv ct : List Nat) :
    ∀ b ∈ gcmTag w iv ct, b < 256 := by
  unfold gcmTag
  intro b hb
  exact zipWith_xor_bytes _ _ (aesEncryptBlock_bytes_lt _ _) (beBytes_lt _ _) b hb

/-- Ciphertext bytes are below 256 when the plaintext consists of bytes. -/
theorem gcmCtr_bytes_lt (w iv pt : List Nat) (hpt : ∀ b ∈ pt, b < 256) :
    ∀ b ∈ gcmCtr w iv pt, b < 256 := by
  unfold gcmCtr
  exact zipWith_xor_bytes _ _ hpt (gcmKeystream_bytes_lt _ _ _)

/-- Under a configured environment with the GCM algorithm and a non-empty
plaintext, `encryptWithSalt` returns the colon-joined base64 triple of the
IV, the CTR ciphertext and the GCM tag. -/
theorem encryptWithSalt_gcm_eq (env : CryptoEnv) (iv secret salt : List Nat)
    (hpw : env.password ≠ []) (halg : env.algorithm = "aes-256-gcm")
    (hsec : secret ≠ []) :
    encryptWithSalt env iv secret salt = .ok (
      b64encode iv ++ [58] ++
      b64encode (gcmCtr (aesKeyExpansion (pbkdf2Sha256 env.password salt 100000)) iv secret) ++
      [58] ++
      b64encode (gcmTag (aesKeyExpansion (pbkdf2Sha256 env.password salt 100000)) iv
        (gcmCtr (aesKeyExpansion (pbkdf2Sha256 env.password salt 100000)) iv secret))) := by
  have hpw' : env.password.isEmpty = false := by
    cases hp : env.password with
    | nil => exact absurd hp hpw
    | cons a l => rfl
  have hsec' : secret.isEmpty = false := by
    cases hp : secret with
    | nil => exact absurd hp hsec
    | cons a l => rfl
  have halgne : ¬(env.algorithm = "") := by rw [halg]; decide
  have hgcm : algoUsesGcm env.algorithm = true := by rw [halg]; decide
  unfold encryptWithSalt
  simp only [hpw', hsec', if_neg halgne, hgcm, Bool.false_eq_true, if_false, if_true]

/-- Under a configured GCM environment, `decryptWithSalt` of the
colon-joined triple with the matching tag recovers the CTR transform of
the ciphertext. -/
theorem decryptWithSalt_gcm_eq (env : CryptoEnv) (iv ct salt : List Nat)
    (hpw : env.password ≠ []) (halg : env.algorithm = "aes-256-gcm")
    (hivB : ∀ b ∈ iv, b < 256) (hctB : ∀ b ∈ ct, b < 256) :
    decryptWithSalt env
      (b64encode iv ++ [58] ++ b64encode ct ++ [58] ++
        b64encode (gcmTag (aesKeyExpansion (pbkdf2Sha256 env.password salt 100000)) iv ct))
      salt =
      .ok (gcmCtr (aesKeyExpansion (pbkdf2Sha256 env.password salt 100000)) iv ct) := by
  have hpw' : env.password.isEmpty = false := by
    cases hp : env.password with
    | nil => exact absurd hp hpw
    | cons a l => rfl
  have halgne : ¬(env.algorithm = "") := by rw [halg]; decide
  have hgcm : algoUsesGcm env.algorithm = true := by rw [halg]; decide
  have hw : (aesKeyExpansion (pbkdf2Sha256 env.password salt 100000)).length = 60 :=
    aesKeyExpansion_length _
  have htag_ne : gcmTag (aesKeyExpansion (pbkdf2Sha256 env.password salt 100000)) iv ct ≠ [] := by
    intro h0
    have hl := gcmTag_length (aesKeyExpansion (pbkdf2Sha256 env.password salt 100000)) iv ct hw
    rw [h0] at hl
    simp at hl
  have hne : (b64encode iv ++ [58] ++ b64encode ct ++ [58] ++
      b64encode (gcmTag (aesKeyExpansion (pbkdf2Sha256 env.password salt 100000)) iv ct)).isEmpty
      = false := by
    cases hbe : b64encode iv <;> simp
  have hassoc : b64encode iv ++ [58] ++ b64encode ct ++ [58] ++
      b64encode (gcmTag (aesKeyExpansion (pbkdf2Sha256 env.password salt 100000)) iv ct) =
      b64encode iv ++ 58 :: (b64encode ct ++ 58 ::
        b64encode (gcmTag (aesKeyExpansion (pbkdf2Sha256 env.password salt 100000)) iv ct)) := by
    simp [List.append_assoc]
  have hsplit : splitOnByte 58 (b64encode iv ++ [58] ++ b64encode ct ++ [58] ++
      b64encode (gcmTag (aesKeyExpansion (pbkdf2Sha256 env.password salt 100000)) iv ct)) =
      [b64encode iv, b64encode ct,
        b64encode (gcmTag (aesKeyExpansion (pbkdf2Sha256 env.password salt 100000)) iv ct)] := by
    rw [hassoc, splitOnByte_append_sep 58 _ _ (b64encode_ne_58 iv),
      splitOnByte_append_sep 58 _ _ (b64encode_ne_58 ct),
      splitOnByte_no_sep 58 _ (b64encode_ne_58 _)]
  have htagb : (b64encode
      (gcmTag (aesKeyExpansion (pbkdf2Sha256 env.password salt 100000)) iv ct)).isEmpty = false := by
    cases hbe : b64encode (gcmTag (aesKeyExpansion (pbkdf2Sha256 env.password salt 100000)) iv ct) with
    | nil => exact absurd ((b64encode_nil_iff _).mp hbe) htag_ne
    | cons a l => rfl
  unfold decryptWithSalt
  simp only [hpw', hne, if_neg halgne, Bool.false_eq_true, if_false, hsplit]
  have hg0 : ([b64encode iv, b64encode ct,
      b64encode (gcmTag (aesKeyExpansion (pbkdf2Sha256 env.password salt 100000)) iv ct)] :
      List (List Nat)).getD 0 [] = b64encode iv := List.getD_cons_zero
  have hg1 : ([b64encode iv, b64encode ct,
      b64encode (gcmTag (aesKeyExpansion (pbkdf2Sha256 env.password salt 100000)) iv ct)] :
      List (List Nat)).getD 1 [] = b64encode ct := by
    rw [List.getD_cons_succ, List.getD_cons_zero]
  have hg2 : ([b64encode iv, b64encode ct,
      b64encode (gcmTag (aesKeyExpansion (pbkdf2Sha256 env.password salt 100000)) iv ct)] :
      List (List Nat)).getD 2 [] =
      b64encode (gcmTag (aesKeyExpansion (pbkdf2Sha256 env.password salt 100000)) iv ct) := by
    rw [List.getD_cons_succ, List.getD_cons_succ, List.getD_cons_zero]
  have hlen3 : ¬(([b64encode iv, b64encode ct,
      b64encode (gcmTag (aesKeyExpansion (pbkdf2Sha256 env.password salt 100000)) iv ct)] :
      List (List Nat)).length < 2) := by
    rw [List.length_cons, List.length_cons, List.length_cons, List.length_nil]
    omega
  rw [if_neg hlen3]
  rw [hg0, hg1, hg2]
  have hc1 : ¬((algoUsesGcm env.algorithm &&
      (b64encode (gcmTag (aesKeyExpansion (pbkdf2Sha256 env.password salt 100000)) iv ct)).isEmpty)
      = true) := by
    rw [hgcm, htagb]
    exact Bool.false_ne_true ∘ id
  rw [if_neg hc1]
  rw [b64_roundtrip iv hivB, b64_roundtrip ct hctB,
    b64_roundtrip _ (gcmTag_bytes_lt _ _ _)]
  rw [if_pos hgcm, if_pos rfl]

/-- Splitting the colon-joined base64 triple recovers the three parts. -/
theorem splitOnByte_out (iv ct tg : List Nat) :
    splitOnByte 58 (b64encode iv ++ [58] ++ b64encode ct ++ [58] ++ b64encode tg) =
      [b64encode iv, b64encode ct, b64encode tg] := by
  have hassoc : b64encode iv ++ [58] ++ b64encode ct ++ [58] ++ b64encode tg =
      b64encode iv ++ 58 :: (b64encode ct ++ 58 :: b64encode tg) := by
    simp [List.append_assoc]
  rw [hassoc, splitOnByte_append_sep 58 _ _ (b64encode_ne_58 iv),
    splitOnByte_append_sep 58 _ _ (b64encode_ne_58 ct),
    splitOnByte_no_sep 58 _ (b64encode_ne_58 _)]

/-- Claim C7, amended: for every non-empty secret and every account id,
decrypting the result of encrypting the secret under the id-derived key
recovers the secret exactly, and a different fresh IV yields a different
ciphertext string; the empty secret is rejected by the encryptor. -/
theorem encrypt_decrypt_roundtrip (env : CryptoEnv) (iv iv2 secret salt : List Nat)
    (hpw : env.password ≠ []) (halg : env.algorithm = "aes-256-gcm")
    (_hiv : iv.length = 12) (hivB : ∀ b ∈ iv, b < 256)
    (_hiv2 : iv2.length = 12) (hiv2B : ∀ b ∈ iv2, b < 256)
    (hsec : secret ≠ []) (hsecB : ∀ b ∈ secret, b < 256) :
    ∃ out, encryptWithSalt env iv secret salt = .ok out ∧
      decryptWithSalt env out salt = .ok secret ∧
      (iv2 ≠ iv → ∀ out2, encryptWithSalt env iv2 secret salt = .ok out2 → out2 ≠ out) := by
  have hw : (aesKeyExpansion (pbkdf2Sha256 env.password salt 100000)).length = 60 :=
    aesKeyExpansion_length _
  have hctB := gcmCtr_bytes_lt (aesKeyExpansion (pbkdf2Sha256 env.password salt 100000))
    iv secret hsecB
  refine ⟨_, encryptWithSalt_gcm_eq env iv secret salt hpw halg hsec, ?_, ?_⟩
  · rw [decryptWithSalt_gcm_eq env iv
      (gcmCtr (aesKeyExpansion (pbkdf2Sha256 env.password salt 100000)) iv secret)
      salt hpw halg hivB hctB]
    rw [gcmCtr_involution _ _ _ hw]
  · intro hne12 out2 henc2 heq
    rw [encryptWithSalt_gcm_eq env iv2 secret salt hpw halg hsec] at henc2
    have hout2 : (b64encode iv2 ++ [58] ++
        b64encode (gcmCtr (aesKeyExpansion (pbkdf2Sha256 env.password salt 100000)) iv2 secret) ++
        [58] ++
        b64encode (gcmTag (aesKeyExpansion (pbkdf2Sha256 env.password salt 100000)) iv2
          (gcmCtr (aesKeyExpansion (pbkdf2Sha256 env.password salt 100000)) iv2 secret))) =
        (b64encode iv ++ [58] ++
        b64encode (gcmCtr (aesKeyExpansion (pbkdf2Sha256 env.password salt 100000)) iv secret) ++
        [58] ++
        b64encode (gcmTag (aesKeyExpansion (pbkdf2Sha256 env.password salt 100000)) iv
          (gcmCtr (aesKeyExpansion (pbkdf2Sha256 env.password salt 100000)) iv secret))) := by
      have h1 := henc2
      rw [heq] at h1
      exact Except.ok.inj h1
    have hsp := congrArg (splitOnByte 58) hout2
    rw [splitOnByte_out, splitOnByte_out] at hsp
    have hivs : b64encode iv2 = b64encode iv := (List.cons.inj hsp).1
    have hivd := congrArg b64decode hivs
    rw [b64_roundtrip iv2 hiv2B, b64_roundtrip iv hivB] at hivd
    exact hne12 hivd

/-- Counterexample to claim C7 as stated: for the empty secret string the
encryptor raises a TypeError instead of producing a ciphertext, so the
round trip does not hold for EVERY secret string. -/
theorem encryptWithSalt_empty_secret_throws :
    encryptWithSalt ⟨[112, 119], "aes-256-gcm"⟩ [0, 1, 2, 3, 4, 5, 6, 7, 8, 9, 10, 11]
      [] [105, 100] =
      .error "The \x27plaintext\x27 argument must be a non-empty string." := rfl

/-- Closed witness for the amended C7 at a concrete environment, a
concrete 12-byte IV pair, the secret "S3CR3T" and the account id "id". -/
theorem encrypt_decrypt_roundtrip_witness :
    ∃ out, encryptWithSalt ⟨[112, 119], "aes-256-gcm"⟩ [0, 1, 2, 3, 4, 5, 6, 7, 8, 9, 10, 11]
        [83, 51, 67, 82, 51, 84] [105, 100] = .ok out ∧
      decryptWithSalt ⟨[112, 119], "aes-256-gcm"⟩ out [105, 100] =
        .ok [83, 51, 67, 82, 51, 84] ∧
      ([11, 10, 9, 8, 7, 6, 5, 4, 3, 2, 1, 0] ≠ [0, 1, 2, 3, 4, 5, 6, 7, 8, 9, 10, 11] →
        ∀ out2, encryptWithSalt ⟨[112, 119], "aes-256-gcm"⟩
          [11, 10, 9, 8, 7, 6, 5, 4, 3, 2, 1, 0] [83, 51, 67, 82, 51, 84] [105, 100] =
          .ok out2 → out2 ≠ out) :=
  encrypt_decrypt_roundtrip ⟨[112, 119], "aes-256-gcm"⟩
    [0, 1, 2, 3, 4, 5, 6, 7, 8, 9, 10, 11] [11, 10, 9, 8, 7, 6, 5, 4, 3, 2, 1, 0]
    [83, 51, 67, 82, 51, 84] [105, 100]
    (by decide) rfl (by decide) (by decide) (by decide) (by decide) (by decide) (by decide)

end ZkOTP
